import Mathlib

/-!
Verification of the QuantumDice training planner
(`DZIEN_2/fuzzylogic_quantum.py`).

Shallow embedding conventions:
* Python `float` values become `ℚ` (the program only performs field
  arithmetic and comparisons on them).
* `datetime.date` becomes `Int` (a day ordinal); `(a - b).days` is `a - b`.
* `math.exp` is an explicit parameter `mexp : ℚ → ℚ` of every function that
  (transitively) calls the softmax; theorems that need it assume only its
  positivity, which the real exponential satisfies.
* `random.random()` draws become an explicit stream `g : ℕ → ℚ` together
  with a cursor `gi : ℕ`; each call consumes one index.
* Functions that raise in Python on an empty option list return `Option`.
-/

namespace QuantumDice

/-- The `AthleteState` dataclass: current athlete condition. -/
structure AthleteState where
  fatigue : ℚ
  soreness : ℚ
  pain : ℚ
  sleep_hours : ℚ
  stress : ℚ
  time_minutes : Int
  goal : String := "ultra"
  deriving Repr, DecidableEq

/-- The `TrainingDayLog` dataclass: one planned day (or the trailing summary). -/
structure TrainingDayLog where
  date : Int
  session_id : String
  minutes : Int
  intensity : String
  score : ℚ
  risk : ℚ
  rationale : String
  deriving Repr, DecidableEq

/-- The `MicroCycleStats` dataclass: rolling micro-cycle counters. -/
structure MicroCycleStats where
  run_days : Int := 0
  strength_days : Int := 0
  quality_days : Int := 0
  long_runs : Int := 0
  total_minutes : Int := 0
  last_quality_date : Option Int := none
  last_long_date : Option Int := none
  last_strength_date : Option Int := none
  deriving Repr, DecidableEq

/-- The `TrainingOption` dataclass: a candidate session. -/
structure TrainingOption where
  id : String
  name : String
  min_time : Int
  minutes : Int
  intensity : String
  base_benefit : ℚ
  base_risk : ℚ
  tags : List String := []
  deriving Repr, DecidableEq

/-- The `TrainingOption.is_quality`. -/
def TrainingOption.is_quality (o : TrainingOption) : Bool :=
  o.tags.contains "quality"

/-- The `TrainingOption.is_long`. -/
def TrainingOption.is_long (o : TrainingOption) : Bool :=
  o.tags.contains "long"

/-- The `TrainingOption.is_strength`. -/
def TrainingOption.is_strength (o : TrainingOption) : Bool :=
  o.tags.contains "strength"

/-- The `QuantumDiceConfig` dataclass. -/
structure QuantumDiceConfig where
  temperature : ℚ := 0.65
  exploration : ℚ := 0.12
  risk_aversion : ℚ := 1.35
  seed : Option Int := none
  deriving Repr, DecidableEq

/-! ## Scorer (`QuantumDice.score_option`)

The body is split into named sub-expressions mirroring the source's
sections (risk block, benefit block, penalty/bonus rules, rationale);
`score_option` assembles them exactly as the Python method does. -/

/-- Risk block of `score_option` (lines 164-170):
`risk = base_risk * pain_factor * fatigue_factor * (1 + sleep_penalty)`. -/
def riskOf (o : TrainingOption) (s : AthleteState) : ℚ :=
  let pain_factor := 1 + s.pain / 5
  let fatigue_factor := 1 + s.fatigue / 10
  let sleep_penalty := max 0 (7 - s.sleep_hours) / 7
  o.base_risk * pain_factor * fatigue_factor * (1 + sleep_penalty)

/-- Goal-dependent benefit block of `score_option` (lines 172-191),
before the micro-cycle bonuses. -/
def goalBenefit (o : TrainingOption) (s : AthleteState) : ℚ :=
  let benefit := o.base_benefit
  if s.goal = "ultra" then
    let b1 := if o.is_long then benefit * 1.25 else benefit
    if o.intensity = "easy" then b1 * 1.10 else b1
  else if s.goal = "half" then
    let b1 := if o.is_quality then benefit * 1.25 else benefit
    if o.intensity = "moderate" then b1 * 1.10 else b1
  else if s.goal = "cut" then
    let b1 := if o.intensity = "easy" ∨ o.intensity = "moderate" then benefit * 1.10 else benefit
    if o.is_strength then b1 * 1.15 else b1
  else benefit

/-- Rule 1 condition (injury gate, lines 197-201):
pain ≥ 4 and the option is quality, long or intensity "hard". -/
def injuryGate (o : TrainingOption) (s : AthleteState) : Prop :=
  4 ≤ s.pain ∧ (o.is_quality = true ∨ o.is_long = true ∨ o.intensity = "hard")

instance (o : TrainingOption) (s : AthleteState) : Decidable (injuryGate o s) := by
  unfold injuryGate; infer_instance

/-- Rule 2 condition (weekly run-minimum bonus, lines 205-207). -/
def runBonusCond (o : TrainingOption) (stats : MicroCycleStats) : Prop :=
  stats.run_days < 3 ∧ (o.intensity = "easy" ∨ o.intensity = "moderate" ∨ o.intensity = "hard")

instance (o : TrainingOption) (stats : MicroCycleStats) : Decidable (runBonusCond o stats) := by
  unfold runBonusCond; infer_instance

/-- Rule 3 condition (strength-minimum bonus, lines 209-211). -/
def strengthBonusCond (o : TrainingOption) (stats : MicroCycleStats) : Prop :=
  stats.strength_days < 2 ∧ o.is_strength = true

instance (o : TrainingOption) (stats : MicroCycleStats) : Decidable (strengthBonusCond o stats) := by
  unfold strengthBonusCond; infer_instance

/-- Rule 4 condition (quality-spacing penalty, lines 214-217). -/
def qualitySpacingCond (o : TrainingOption) (stats : MicroCycleStats) (today : Int) : Prop :=
  o.is_quality = true ∧ ∃ d, stats.last_quality_date = some d ∧ today - d < 2

instance (o : TrainingOption) (stats : MicroCycleStats) (today : Int) :
    Decidable (qualitySpacingCond o stats today) := by
  unfold qualitySpacingCond
  cases h : stats.last_quality_date with
  | none => exact .isFalse (by simp [h])
  | some d =>
      exact decidable_of_iff (o.is_quality = true ∧ today - d < 2) (by simp [h])

/-- Rule 5 condition (long-run-cap penalty, lines 220-222). -/
def longCapCond (o : TrainingOption) (stats : MicroCycleStats) : Prop :=
  o.is_long = true ∧ 1 ≤ stats.long_runs

instance (o : TrainingOption) (stats : MicroCycleStats) : Decidable (longCapCond o stats) := by
  unfold longCapCond; infer_instance

/-- Rule 6 condition (high-fatigue penalty, lines 225-227). -/
def fatigueCond (o : TrainingOption) (s : AthleteState) : Prop :=
  7 ≤ s.fatigue ∧ (o.intensity = "hard" ∨ o.intensity = "moderate") ∧ ¬ o.is_strength = true

instance (o : TrainingOption) (s : AthleteState) : Decidable (fatigueCond o s) := by
  unfold fatigueCond; infer_instance

/-- Rule 7 condition (low-base penalty, lines 230-232). -/
def lowBaseCond (o : TrainingOption) (stats : MicroCycleStats) : Prop :=
  stats.run_days ≤ 1 ∧ o.intensity = "hard"

instance (o : TrainingOption) (stats : MicroCycleStats) : Decidable (lowBaseCond o stats) := by
  unfold lowBaseCond; infer_instance

/-- Benefit after the micro-cycle bonuses (rules 2 and 3 add to `benefit`). -/
def benefitOf (o : TrainingOption) (s : AthleteState) (stats : MicroCycleStats) : ℚ :=
  goalBenefit o s
    + (if runBonusCond o stats then 0.8 else 0)
    + (if strengthBonusCond o stats then 0.9 else 0)

/-- Sum of the additive penalties (rules 1, 4, 5, 6, 7, in source order). -/
def penaltiesOf (o : TrainingOption) (s : AthleteState) (stats : MicroCycleStats)
    (today : Int) : ℚ :=
  (if injuryGate o s then 4.0 else 0)
    + (if qualitySpacingCond o stats today then 2.2 else 0)
    + (if longCapCond o stats then 2.5 else 0)
    + (if fatigueCond o s then 1.8 else 0)
    + (if lowBaseCond o stats then 2.0 else 0)

/-- The `notes` list accumulated by the rules, in source order. -/
def notesOf (o : TrainingOption) (s : AthleteState) (stats : MicroCycleStats)
    (today : Int) : List String :=
  (if injuryGate o s then ["kara: ból>=4 => zakaz jakości/long"] else [])
    ++ (if runBonusCond o stats then ["bonus: domyka 3 dni biegu/tydz"] else [])
    ++ (if strengthBonusCond o stats then ["bonus: domyka siłę"] else [])
    ++ (if qualitySpacingCond o stats today then ["kara: jakość za szybko po jakości"] else [])
    ++ (if longCapCond o stats then ["kara: long już był w mikrocyklu"] else [])
    ++ (if fatigueCond o s then ["kara: fatigue>=7 nie lubi mocnych akcentów"] else [])
    ++ (if lowBaseCond o stats then ["kara: mała baza => hard ryzykowny"] else [])

/-- The `QuantumDice.score_option`: returns `(utility, risk, rationale)`.
Lines 150-238 of the source. -/
def score_option (cfg : QuantumDiceConfig) (o : TrainingOption) (s : AthleteState)
    (stats : MicroCycleStats) (today : Int) : ℚ × ℚ × String :=
  if s.time_minutes < o.min_time then
    (-9999, 10, "ODRZUT: brak czasu")
  else
    let risk := riskOf o s
    let benefit := benefitOf o s stats
    let penalties := penaltiesOf o s stats today
    let notes := notesOf o s stats today
    let utility := benefit - cfg.risk_aversion * risk - penalties
    let rationale := if notes = [] then "brak dodatkowych kar/bonusów"
                     else String.intercalate "; " notes
    (utility, risk, rationale)

/-! ## Session catalog (`default_training_options`) -/

/-- The `default_training_options`: the fixed 8-option catalog (lines 285-371). -/
def default_training_options : List TrainingOption :=
  [ { id := "rest", name := "Pełny odpoczynek + 20 min mobilizacji",
      min_time := 20, minutes := 20, intensity := "rest",
      base_benefit := 0.6, base_risk := 0.05, tags := ["recovery"] },
    { id := "easy_run_40", name := "Bieg łatwy 40 min (Z2, luźno)",
      min_time := 35, minutes := 40, intensity := "easy",
      base_benefit := 2.6, base_risk := 0.35, tags := ["run"] },
    { id := "easy_run_60", name := "Bieg łatwy 60 min (Z2, spokojnie)",
      min_time := 55, minutes := 60, intensity := "easy",
      base_benefit := 3.2, base_risk := 0.45, tags := ["run"] },
    { id := "moderate_hills", name := "Podbiegi techniczne 10x45s + rozgrz/ schłodz (łącznie 55 min)",
      min_time := 50, minutes := 55, intensity := "moderate",
      base_benefit := 3.8, base_risk := 0.85, tags := ["run", "quality"] },
    { id := "tempo_45", name := "Tempo: 3x8 min (pomiędzy 3 min trucht), całość 50 min",
      min_time := 45, minutes := 50, intensity := "hard",
      base_benefit := 4.2, base_risk := 1.05, tags := ["run", "quality"] },
    { id := "long_run_110", name := "Długi bieg 110 min (Z2, kontrola, żywienie w trakcie)",
      min_time := 95, minutes := 110, intensity := "easy",
      base_benefit := 5.0, base_risk := 1.10, tags := ["run", "long"] },
    { id := "strength_45", name := "Siła 45 min (nogi + core + poślad + łydka, bez ego)",
      min_time := 35, minutes := 45, intensity := "strength",
      base_benefit := 3.0, base_risk := 0.40, tags := ["strength"] },
    { id := "easy_plus_str_70", name := "Bieg łatwy 35 min + siła 30 min (łącznie ~65-70 min)",
      min_time := 60, minutes := 70, intensity := "moderate",
      base_benefit := 4.1, base_risk := 0.75, tags := ["run", "strength"] } ]

/-! ## Stats update (`apply_session_to_stats`) -/

/-- The `apply_session_to_stats` (lines 378-396), as a pure state transformer:
the Python function mutates `stats` in place. -/
def apply_session_to_stats (stats : MicroCycleStats) (session : TrainingOption)
    (date : Int) : MicroCycleStats :=
  let stats := { stats with total_minutes := stats.total_minutes + session.minutes }
  let stats :=
    if session.tags.contains "run" ∨ (session.intensity = "easy" ∨
        session.intensity = "moderate" ∨ session.intensity = "hard") then
      if ¬ session.is_strength = true ∧ session.intensity ≠ "rest" then
        { stats with run_days := stats.run_days + 1 }
      else stats
    else stats
  let stats :=
    if session.is_strength then
      { stats with strength_days := stats.strength_days + 1, last_strength_date := some date }
    else stats
  let stats :=
    if session.is_quality then
      { stats with quality_days := stats.quality_days + 1, last_quality_date := some date }
    else stats
  let stats :=
    if session.is_long then
      { stats with long_runs := stats.long_runs + 1, last_long_date := some date }
    else stats
  stats

/-! ## Report (`brutal_coach_comment`) -/

/-- The `brutal_coach_comment` (lines 403-421). -/
def brutal_coach_comment (stats : MicroCycleStats) : String :=
  let bullets : List String :=
    (if stats.run_days < 3 then
      ["- Bieganie " ++ toString stats.run_days ++
       " dni/tydz: za mało. To nie buduje bazy, to ją podtrzymuje (albo i nie)."] else [])
    ++ (if stats.strength_days < 2 then
      ["- Siła " ++ toString stats.strength_days ++
       " dni/tydz: to jest poziom \x27dla świętego spokoju\x27, nie pod progres."] else [])
    ++ (if stats.quality_days < 1 then
      ["- Brak jakości: bez bodźca szybkości/siły biegowej stoisz w miejscu."] else [])
    ++ (if stats.long_runs < 1 then
      ["- Brak long run: pod ultra to jak budować most bez filaru środkowego."] else [])
  if bullets = [] then
    "W tym mikrocyklu robota wygląda sensownie. Teraz tylko nie zepsuj tego ego i chaosem."
  else
    "Diagnoza (bez cukru):\n" ++ String.intercalate "\n" bullets

/-! ## Selector (`QuantumDice._softmax`, `QuantumDice.choose`)

One entry of the ranked list: `(utility, option, risk, rationale)`. -/

abbrev Scored := ℚ × TrainingOption × ℚ × String

/-- Maximum of a list, defined (as Python `max`) only for non-empty input;
returns `0` on `[]`, a case no caller reaches (Python would raise). -/
def maxD : List ℚ → ℚ
  | [] => 0
  | x :: xs => xs.foldl max x

/-- The `QuantumDice._softmax` (lines 135-148). `mexp` models `math.exp`. -/
def softmax (mexp : ℚ → ℚ) (xs : List ℚ) (temperature : ℚ) : List ℚ :=
  if temperature ≤ 1 / 1000000000 then
    let m := maxD xs
    let probs := xs.map (fun x => if x = m then (1 : ℚ) else 0)
    let s := probs.sum
    probs.map (fun p => p / s)
  else
    let m := maxD xs
    let exps := xs.map (fun x => mexp ((x - m) / temperature))
    let s := exps.sum
    exps.map (fun e => e / s)

/-- The `scored.sort(key=lambda x: x[0], reverse=True)`: insertion of one
element into a list already sorted descending; a tie places the inserted
(original-earlier) element first, which is Python's stable behaviour. -/
def insertDesc (x : Scored) : List Scored → List Scored
  | [] => [x]
  | y :: ys => if y.1 ≤ x.1 then x :: y :: ys else y :: insertDesc x ys

/-- Stable descending sort by utility, the semantics of
`scored.sort(key=lambda x: x[0], reverse=True)`. -/
def sortDesc : List Scored → List Scored
  | [] => []
  | x :: xs => insertDesc x (sortDesc xs)

/-- The cumulative-sum inversion loop of `choose` (lines 266-273): first
index whose running total reaches `pick`, or `none` if the loop never
breaks. -/
def cumPickAux (pick : ℚ) : List ℚ → ℚ → ℕ → Option ℕ
  | [], _, _ => none
  | p :: ps, cum, i =>
      let c := cum + p
      if pick ≤ c then some i else cumPickAux pick ps c (i + 1)

/-- The `chosen_idx` of the exploration branch: the loop above with
`chosen_idx = 0` when no break happens. -/
def cumPick (pick : ℚ) (probs : List ℚ) : ℕ :=
  (cumPickAux pick probs 0 0).getD 0

/-- The `scored` list built by the first loop of `choose` (lines 253-256):
one `(utility, option, risk, rationale)` entry per option, in catalog
order. -/
def scoredOf (cfg : QuantumDiceConfig) (options : List TrainingOption)
    (state : AthleteState) (stats : MicroCycleStats) (today : Int) : List Scored :=
  options.map (fun opt =>
    let sc := score_option cfg opt state stats today
    (sc.1, opt, sc.2.1, sc.2.2))

/-- The `QuantumDice.choose` (lines 240-278). Draws `g gi` for the
exploration coin flip and, on the exploration branch, `g (gi+1)` for the
distribution sample; returns the next unused cursor. `none` exactly when
`options` is empty (Python raises inside `max` there). -/
def choose (mexp : ℚ → ℚ) (g : ℕ → ℚ) (gi : ℕ) (cfg : QuantumDiceConfig)
    (options : List TrainingOption) (state : AthleteState) (stats : MicroCycleStats)
    (today : Int) (top_k : ℕ) :
    Option (TrainingOption × List Scored × ℕ) :=
  match sortDesc (scoredOf cfg options state stats today) with
  | [] => none
  | top :: rest =>
      let sorted := top :: rest
      let utilities := sorted.map (·.1)
      let probs := softmax mexp utilities cfg.temperature
      if g gi < cfg.exploration then
        let pick := g (gi + 1)
        let chosen_idx := cumPick pick probs
        let chosen := (sorted.getD chosen_idx top).2.1
        some (chosen, sorted.take top_k, gi + 2)
      else
        some (top.2.1, sorted.take top_k, gi + 1)

/-! ## Planner (`simulate_week`) -/

/-- Two-decimal rendering of a rational, modelling the `f"{v:.2f}"`
formatting used in the per-day rationale (display only; no claim
depends on the rendered digits). -/
def fmt2 (q : ℚ) : String :=
  let n : Int := ⌊q * 100 + 1 / 2⌋
  let m := n.natAbs
  (if n < 0 then "-" else "")
    ++ toString (m / 100) ++ "."
    ++ (if m % 100 < 10 then "0" else "") ++ toString (m % 100)

/-- The per-day rationale block built in `simulate_week` (lines 449-454). -/
def dayRationale (chosen : TrainingOption) (why : String) (top : List Scored) : String :=
  let topLines := top.enum.map (fun p =>
    "  " ++ toString (p.1 + 1) ++ ". u=" ++ fmt2 p.2.1 ++ ", risk=" ++ fmt2 p.2.2.2.1
      ++ " | " ++ p.2.2.1.id ++ " | " ++ p.2.2.2.2)
  String.intercalate "\n"
    (["Wybrane: " ++ chosen.name, "Powód: " ++ why, "TOP kandydaci:"] ++ topLines)

/-- The per-day log record assembled by `simulate_week` (lines 446-466);
the chosen option is re-scored for the log exactly as in the source
(line 447). -/
def dayLog (cfg : QuantumDiceConfig) (chosen : TrainingOption) (st : AthleteState)
    (stats : MicroCycleStats) (day : Int) (top : List Scored) : TrainingDayLog :=
  let sc := score_option cfg chosen st stats day
  { date := day, session_id := chosen.id, minutes := chosen.minutes,
    intensity := chosen.intensity, score := sc.1, risk := sc.2.1,
    rationale := dayRationale chosen sc.2.2 top }

/-- The day loop of `simulate_week` (lines 442-468): processes the states
in order, threading the stats and the random cursor; returns the day
logs, the final stats and the final cursor. `none` only if some `choose`
fails (empty option list). -/
def simulateDays (mexp : ℚ → ℚ) (g : ℕ → ℚ) (cfg : QuantumDiceConfig)
    (options : List TrainingOption) :
    Int → List AthleteState → MicroCycleStats → ℕ →
    Option (List TrainingDayLog × MicroCycleStats × ℕ)
  | _, [], stats, gi => some ([], stats, gi)
  | day, st :: rest, stats, gi =>
      match choose mexp g gi cfg options st stats day 6 with
      | none => none
      | some (chosen, top, gi') =>
          match simulateDays mexp g cfg options (day + 1) rest
              (apply_session_to_stats stats chosen day) gi' with
          | none => none
          | some (logs, statsF, giF) =>
              some (dayLog cfg chosen st stats day top :: logs, statsF, giF)

/-- The trailing summary record appended by `simulate_week` (lines 471-489). -/
def summaryLog (start : Int) (n : ℕ) (stats : MicroCycleStats) : TrainingDayLog :=
  { date := start + n, session_id := "WEEK_SUMMARY",
    minutes := stats.total_minutes, intensity := "summary",
    score := 0, risk := 0,
    rationale :=
      "Podsumowanie mikrocyklu:\n"
        ++ "- run_days=" ++ toString stats.run_days ++ "\n"
        ++ "- strength_days=" ++ toString stats.strength_days ++ "\n"
        ++ "- quality_days=" ++ toString stats.quality_days ++ "\n"
        ++ "- long_runs=" ++ toString stats.long_runs ++ "\n"
        ++ "- total_minutes=" ++ toString stats.total_minutes ++ "\n\n"
        ++ brutal_coach_comment stats }

/-- The `simulate_week` (lines 428-491), over an explicit random stream `g`. -/
def simulate_week (mexp : ℚ → ℚ) (g : ℕ → ℚ) (start : Int)
    (states : List AthleteState) (cfg : QuantumDiceConfig) :
    Option (List TrainingDayLog) :=
  match simulateDays mexp g cfg default_training_options start states {} 0 with
  | none => none
  | some (logs, stats, _) => some (logs ++ [summaryLog start states.length stats])

/-- The `QuantumDice.__init__` seeds the process-wide generator exactly when
`cfg.seed` is set (lines 130-133): the stream actually consumed is the
seed-determined stream `prng s` then, and the ambient process stream
otherwise. -/
def simulate_week_seeded (mexp : ℚ → ℚ) (prng : Int → ℕ → ℚ) (ambient : ℕ → ℚ)
    (start : Int) (states : List AthleteState) (cfg : QuantumDiceConfig) :
    Option (List TrainingDayLog) :=
  let g := match cfg.seed with
    | some s => prng s
    | none => ambient
  simulate_week mexp g start states cfg

/-! ## Auxiliary definitions used by the verification -/

/-- Earliest maximum of a scored list: the element of greatest utility,
ties in favour of the earliest list position (used to characterise the
head of the stable descending sort). -/
def eMaxList : List Scored → Option Scored
  | [] => none
  | x :: xs =>
      match eMaxList xs with
      | none => some x
      | some m => some (if m.1 ≤ x.1 then x else m)

/-- The condition under which the code increments `run_days`
(lines 381-384): the outer run/intensity guard plus the inner
not-strength, not-rest guard. -/
def runIncrementCond (o : TrainingOption) : Prop :=
  (o.tags.contains "run" = true ∨ (o.intensity = "easy" ∨
    o.intensity = "moderate" ∨ o.intensity = "hard")) ∧
  (¬ o.is_strength = true ∧ o.intensity ≠ "rest")

instance (o : TrainingOption) : Decidable (runIncrementCond o) := by
  unfold runIncrementCond; infer_instance

/-! ## State-passing variants of the Scorer and the Selector

In Python, `score_option` and `choose` receive the mutable objects
`state`, `stats` (and `choose` also the `options` list).  The
state-passing translation below threads those objects through every
statement of the source; since no statement of either method assigns to
them, each function returns the threaded objects exactly as received.
(`apply_session_to_stats`, by contrast, is a genuine state transformer:
see `apply_session_to_stats`.) -/

/-- The `score_option` with `(state, stats)` threaded explicitly. -/
def score_optionSt (cfg : QuantumDiceConfig) (o : TrainingOption) (today : Int)
    (ss : AthleteState × MicroCycleStats) :
    (ℚ × ℚ × String) × (AthleteState × MicroCycleStats) :=
  if ss.1.time_minutes < o.min_time then
    ((-9999, 10, "ODRZUT: brak czasu"), ss)
  else
    let risk := riskOf o ss.1
    let benefit := benefitOf o ss.1 ss.2
    let penalties := penaltiesOf o ss.1 ss.2 today
    let notes := notesOf o ss.1 ss.2 today
    let utility := benefit - cfg.risk_aversion * risk - penalties
    let rationale := if notes = [] then "brak dodatkowych kar/bonusów"
                     else String.intercalate "; " notes
    ((utility, risk, rationale), ss)

/-- The scoring loop of `choose` (lines 253-256) with `(state, stats)`
threaded through every `score_option` call. -/
def chooseScoreLoop (cfg : QuantumDiceConfig) (today : Int)
    (opts : List TrainingOption) (acc : List Scored)
    (ss : AthleteState × MicroCycleStats) :
    List Scored × (AthleteState × MicroCycleStats) :=
  match opts with
  | [] => (acc, ss)
  | opt :: rest =>
      let r := score_optionSt cfg opt today ss
      chooseScoreLoop cfg today rest
        (acc ++ [(r.1.1, opt, r.1.2.1, r.1.2.2)]) r.2

/-- The `choose` with `(state, stats, options)` threaded explicitly. -/
def chooseSt (mexp : ℚ → ℚ) (g : ℕ → ℚ) (gi : ℕ) (cfg : QuantumDiceConfig)
    (today : Int) (top_k : ℕ)
    (sso : AthleteState × MicroCycleStats × List TrainingOption) :
    Option (TrainingOption × List Scored × ℕ) ×
      (AthleteState × MicroCycleStats × List TrainingOption) :=
  let r := chooseScoreLoop cfg today sso.2.2 [] (sso.1, sso.2.1)
  let res :=
    match sortDesc r.1 with
    | [] => none
    | top :: rest =>
        let sorted := top :: rest
        let utilities := sorted.map (·.1)
        let probs := softmax mexp utilities cfg.temperature
        if g gi < cfg.exploration then
          let pick := g (gi + 1)
          let chosen_idx := cumPick pick probs
          let chosen := (sorted.getD chosen_idx top).2.1
          some (chosen, sorted.take top_k, gi + 2)
        else
          some (top.2.1, sorted.take top_k, gi + 1)
  (res, (r.2.1, r.2.2, sso.2.2))

/-! ## Concrete instances used in the claim analysis -/

/-- Constant model of `math.exp`; it satisfies the positivity the real
exponential has, which is all the proved properties use. -/
def mexpOne : ℚ → ℚ := fun _ => 1

/-- Random stream that constantly returns `0` (a value `random.random()`
can produce). -/
def gZero : ℕ → ℚ := fun _ => 0

/-- Athlete state with 30 free minutes: only the 20-minute rest option of
the default catalog is feasible. -/
def c1State : AthleteState :=
  { fatigue := 0, soreness := 0, pain := 0, sleep_hours := 7, stress := 0,
    time_minutes := 30, goal := "ultra" }

/-- Configuration with an extreme (but positive, hence type-correct)
risk aversion: every feasible utility then falls below the −9999
sentinel. Temperature 0 and exploration 0 make the choice deterministic. -/
def c1Cfg : QuantumDiceConfig :=
  { temperature := 0, exploration := 0, risk_aversion := 1000000, seed := none }

/-- The default configuration of the source with the exploration rate set
to 0 (used to instantiate the deterministic-selection theorems). -/
def cfgGreedy : QuantumDiceConfig :=
  { temperature := 0.65, exploration := 0, risk_aversion := 1.35, seed := none }

/-- A session of intensity "strength" carrying no tags: not
strength-tagged and not rest, yet `apply_session_to_stats` does not
increment `run_days` for it because the outer run/intensity guard fails. -/
def c3Option : TrainingOption :=
  { id := "s", name := "s", min_time := 0, minutes := 30, intensity := "strength",
    base_benefit := 1, base_risk := 0, tags := [] }

/-- The seeded configuration of the source's example run (lines 513-518). -/
def cfgSeeded : QuantumDiceConfig :=
  { temperature := 0.6, exploration := 0.1, risk_aversion := 1.45, seed := some 42 }

/-- Generic feasible test option used by the witnesses. -/
def wOpt : TrainingOption :=
  { id := "t", name := "t", min_time := 20, minutes := 20, intensity := "easy",
    base_benefit := 1, base_risk := 1, tags := [] }

/-- Generic in-range test state used by the witnesses. -/
def wState : AthleteState :=
  { fatigue := 2, soreness := 0, pain := 2, sleep_hours := 6, stress := 0,
    time_minutes := 30, goal := "ultra" }

/-- A long-tagged option used by the C7 witness. -/
def c7Opt : TrainingOption :=
  { id := "l", name := "l", min_time := 20, minutes := 100, intensity := "easy",
    base_benefit := 5, base_risk := 1.1, tags := ["run", "long"] }

/-- A pain-4.5 state used by the C7 witness. -/
def c7State : AthleteState :=
  { fatigue := 2, soreness := 0, pain := 4.5, sleep_hours := 7, stress := 0,
    time_minutes := 60, goal := "ultra" }

/-- The micro-cycle statistics the `simulate_week` run exposes after its
first `k` days: the stats component of the day loop run on the first `k`
input states. -/
def statsAfter (mexp : ℚ → ℚ) (g : ℕ → ℚ) (cfg : QuantumDiceConfig) (start : Int)
    (states : List AthleteState) (k : ℕ) : Option MicroCycleStats :=
  match simulateDays mexp g cfg default_training_options start (states.take k)
      ({} : MicroCycleStats) 0 with
  | none => none
  | some (_, s, _) => some s

/-! ## Helper lemmas: `maxD`, sums -/

theorem foldl_max_mem : ∀ (xs : List ℚ) (x : ℚ), xs.foldl max x ∈ x :: xs := by
  intro xs
  induction xs with
  | nil => simp
  | cons y ys ih =>
      intro x
      simp only [List.foldl_cons]
      have h := ih (max x y)
      rcases List.mem_cons.mp h with h | h
      · rcases max_choice x y with hm | hm
        · exact List.mem_cons.mpr (Or.inl (h.trans hm))
        · exact List.mem_cons.mpr (Or.inr (List.mem_cons.mpr (Or.inl (h.trans hm))))
      · exact List.mem_cons.mpr (Or.inr (List.mem_cons.mpr (Or.inr h)))

theorem self_le_foldl_max : ∀ (xs : List ℚ) (x : ℚ), x ≤ xs.foldl max x := by
  intro xs
  induction xs with
  | nil => simp
  | cons y ys ih =>
      intro x
      simp only [List.foldl_cons]
      exact le_trans (le_max_left x y) (ih (max x y))

theorem mem_le_foldl_max : ∀ (xs : List ℚ) (x : ℚ), ∀ y ∈ xs, y ≤ xs.foldl max x := by
  intro xs
  induction xs with
  | nil => simp
  | cons z zs ih =>
      intro x y hy
      simp only [List.foldl_cons]
      rcases List.mem_cons.mp hy with rfl | hy'
      · exact le_trans (le_max_right x y) (self_le_foldl_max zs (max x y))
      · exact ih (max x z) y hy'

theorem maxD_mem (l : List ℚ) (hl : l ≠ []) : maxD l ∈ l := by
  cases l with
  | nil => exact absurd rfl hl
  | cons x xs => exact foldl_max_mem xs x

theorem le_maxD (l : List ℚ) : ∀ x ∈ l, x ≤ maxD l := by
  cases l with
  | nil => simp
  | cons x xs =>
      intro y hy
      rcases List.mem_cons.mp hy with rfl | hy'
      · exact self_le_foldl_max xs y
      · exact mem_le_foldl_max xs x y hy'

theorem sum_map_div (l : List ℚ) (s : ℚ) :
    (l.map (fun x => x / s)).sum = l.sum / s := by
  induction l with
  | nil => simp
  | cons x xs ih => simp [ih, add_div]

/-! ## Helper lemmas: stable descending sort -/

theorem insertDesc_ne_nil (x : Scored) (l : List Scored) : insertDesc x l ≠ [] := by
  cases l with
  | nil => simp [insertDesc]
  | cons y ys =>
      simp only [insertDesc]
      split <;> simp

theorem insertDesc_perm (x : Scored) (l : List Scored) :
    List.Perm (insertDesc x l) (x :: l) := by
  induction l with
  | nil => exact List.Perm.refl _
  | cons y ys ih =>
      simp only [insertDesc]
      split
      · exact List.Perm.refl _
      · exact (List.Perm.cons y ih).trans (List.Perm.swap x y ys)

theorem sortDesc_perm (l : List Scored) : List.Perm (sortDesc l) l := by
  induction l with
  | nil => exact List.Perm.refl _
  | cons x xs ih =>
      exact (insertDesc_perm x (sortDesc xs)).trans (List.Perm.cons x ih)

theorem sortDesc_eq_nil_iff (l : List Scored) : sortDesc l = [] ↔ l = [] := by
  constructor
  · intro h
    have := (sortDesc_perm l).length_eq
    rw [h] at this
    exact List.length_eq_zero.mp this.symm
  · intro h; subst h; rfl

theorem eMaxList_nil : eMaxList [] = none := rfl

theorem eMaxList_cons (x : Scored) (xs : List Scored) :
    eMaxList (x :: xs) =
      match eMaxList xs with
      | none => some x
      | some m => some (if m.1 ≤ x.1 then x else m) := rfl

theorem eMaxList_ne_none (x : Scored) (xs : List Scored) :
    eMaxList (x :: xs) ≠ none := by
  rw [eMaxList_cons]
  cases eMaxList xs <;> simp

theorem sortDesc_head (l : List Scored) : (sortDesc l).head? = eMaxList l := by
  induction l with
  | nil => rfl
  | cons x xs ih =>
      show (insertDesc x (sortDesc xs)).head? = _
      rw [eMaxList_cons, ← ih]
      cases h : sortDesc xs with
      | nil => rfl
      | cons y ys =>
          simp only [List.head?_cons, insertDesc]
          split <;> simp

/-- The earliest maximum really is the element at the least
utility-maximal index. -/
theorem eMaxList_spec : ∀ (l : List Scored) (m : Scored), eMaxList l = some m →
    ∃ i, ∃ hi : i < l.length, l.get ⟨i, hi⟩ = m ∧ (∀ y ∈ l, y.1 ≤ m.1) ∧
      (∀ j, ∀ hj : j < i, (l.get ⟨j, lt_trans hj hi⟩).1 < m.1) := by
  intro l
  induction l with
  | nil => intro m hm; simp [eMaxList_nil] at hm
  | cons x xs ih =>
      intro m hm
      rw [eMaxList_cons] at hm
      cases h : eMaxList xs with
      | none =>
          rw [h] at hm
          have hmx : x = m := by simpa using hm
          subst hmx
          exact ⟨0, by simp, rfl, by
            intro y hy
            rcases List.mem_cons.mp hy with rfl | hy'
            · exact le_refl _
            · cases xs with
              | nil => simp at hy'
              | cons z zs => exact absurd h (eMaxList_ne_none z zs),
            by intro j hj; omega⟩
      | some m' =>
          rw [h] at hm
          obtain ⟨i', hi', hget', hge', hlt'⟩ := ih m' h
          by_cases hc : m'.1 ≤ x.1
          · have hmx : x = m := by simpa [hc] using hm
            subst hmx
            refine ⟨0, by simp, rfl, ?_, by intro j hj; omega⟩
            intro y hy
            rcases List.mem_cons.mp hy with rfl | hy'
            · exact le_refl _
            · exact le_trans (hge' y hy') hc
          · have hmx : m' = m := by simpa [hc] using hm
            subst hmx
            refine ⟨i' + 1, by simpa using Nat.succ_lt_succ hi', by simpa using hget',
              ?_, ?_⟩
            · intro y hy
              rcases List.mem_cons.mp hy with rfl | hy'
              · exact le_of_not_le hc
              · exact hge' y hy'
            · intro j hj
              cases j with
              | zero => exact lt_of_not_le hc
              | succ jj =>
                  have hjj : jj < i' := Nat.lt_of_succ_lt_succ hj
                  simpa using hlt' jj hjj

/-! ## Helper lemmas: `choose` -/

theorem getD_mem {α : Type} (l : List α) (n : ℕ) (d : α) (hd : d ∈ l) :
    l.getD n d ∈ l := by
  show (l.get? n).getD d ∈ l
  cases hn : l.get? n with
  | none => simpa using hd
  | some a => simpa using List.get?_mem hn

theorem scoredOf_opt_mem (cfg : QuantumDiceConfig) (options : List TrainingOption)
    (s : AthleteState) (stats : MicroCycleStats) (today : Int) (y : Scored)
    (hy : y ∈ scoredOf cfg options s stats today) : y.2.1 ∈ options := by
  obtain ⟨opt, hopt, rfl⟩ := List.mem_map.mp hy
  exact hopt

theorem scoredOf_length (cfg : QuantumDiceConfig) (options : List TrainingOption)
    (s : AthleteState) (stats : MicroCycleStats) (today : Int) :
    (scoredOf cfg options s stats today).length = options.length :=
  List.length_map _ _

theorem scoredOf_get (cfg : QuantumDiceConfig) (options : List TrainingOption)
    (s : AthleteState) (stats : MicroCycleStats) (today : Int) (i : ℕ)
    (hi : i < options.length) :
    (scoredOf cfg options s stats today).get
        ⟨i, by rw [scoredOf_length]; exact hi⟩ =
      (let sc := score_option cfg (options.get ⟨i, hi⟩) s stats today
       (sc.1, options.get ⟨i, hi⟩, sc.2.1, sc.2.2)) := by
  simp [scoredOf]

theorem choose_eq_none_iff (mexp : ℚ → ℚ) (g : ℕ → ℚ) (gi : ℕ)
    (cfg : QuantumDiceConfig) (options : List TrainingOption) (s : AthleteState)
    (stats : MicroCycleStats) (today : Int) (k : ℕ) :
    choose mexp g gi cfg options s stats today k = none ↔ options = [] := by
  unfold choose
  cases h : sortDesc (scoredOf cfg options s stats today) with
  | nil =>
      have : scoredOf cfg options s stats today = [] :=
        (sortDesc_eq_nil_iff _).mp h
      simp only [scoredOf] at this
      simp [List.map_eq_nil_iff.mp this]
  | cons top rest =>
      have hne : options ≠ [] := by
        intro hcon
        subst hcon
        simp [scoredOf, sortDesc] at h
      simp only []
      constructor
      · intro hcon
        split at hcon <;> simp at hcon
      · intro hcon; exact absurd hcon hne

theorem choose_greedy (mexp : ℚ → ℚ) (g : ℕ → ℚ) (gi : ℕ)
    (cfg : QuantumDiceConfig) (options : List TrainingOption) (s : AthleteState)
    (stats : MicroCycleStats) (today : Int) (k : ℕ)
    (hexpl : ¬ g gi < cfg.exploration) (top : Scored) (rest : List Scored)
    (h : sortDesc (scoredOf cfg options s stats today) = top :: rest) :
    choose mexp g gi cfg options s stats today k =
      some (top.2.1, (top :: rest).take k, gi + 1) := by
  unfold choose
  rw [h]
  simp [hexpl]

theorem choose_explore (mexp : ℚ → ℚ) (g : ℕ → ℚ) (gi : ℕ)
    (cfg : QuantumDiceConfig) (options : List TrainingOption) (s : AthleteState)
    (stats : MicroCycleStats) (today : Int) (k : ℕ)
    (hexpl : g gi < cfg.exploration) (top : Scored) (rest : List Scored)
    (h : sortDesc (scoredOf cfg options s stats today) = top :: rest) :
    choose mexp g gi cfg options s stats today k =
      some ((((top :: rest).getD
          (cumPick (g (gi + 1))
            (softmax mexp ((top :: rest).map (·.1)) cfg.temperature)) top).2.1),
        (top :: rest).take k, gi + 2) := by
  unfold choose
  rw [h]
  simp [hexpl]

/-- Whatever branch is taken, the chosen option is one of the input
options. -/
theorem choose_mem (mexp : ℚ → ℚ) (g : ℕ → ℚ) (gi : ℕ)
    (cfg : QuantumDiceConfig) (options : List TrainingOption) (s : AthleteState)
    (stats : MicroCycleStats) (today : Int) (k : ℕ)
    (ch : TrainingOption) (ranked : List Scored) (gi' : ℕ)
    (h : choose mexp g gi cfg options s stats today k = some (ch, ranked, gi')) :
    ch ∈ options := by
  have hsorted_mem : ∀ y ∈ sortDesc (scoredOf cfg options s stats today), y.2.1 ∈ options := by
    intro y hy
    exact scoredOf_opt_mem cfg options s stats today y ((sortDesc_perm _).mem_iff.mp hy)
  unfold choose at h
  cases hs : sortDesc (scoredOf cfg options s stats today) with
  | nil => rw [hs] at h; simp at h
  | cons top rest =>
      rw [hs] at h
      simp only [] at h
      split at h
      · rw [Option.some.injEq, Prod.mk.injEq] at h
        obtain ⟨h1, _⟩ := h
        have : (((top :: rest).getD
            (cumPick (g (gi + 1))
              (softmax mexp ((top :: rest).map (·.1)) cfg.temperature)) top)) ∈ top :: rest :=
          getD_mem _ _ _ (List.mem_cons_self _ _)
        rw [← h1]
        exact hsorted_mem _ (hs ▸ this)
      · rw [Option.some.injEq, Prod.mk.injEq] at h
        obtain ⟨h1, _⟩ := h
        rw [← h1]
        exact hsorted_mem top (hs ▸ List.mem_cons_self _ _)

/-! ## Helper lemmas: `softmax` -/

theorem indicator_sum_eq_count (xs : List ℚ) (m : ℚ) :
    (xs.map (fun x => if x = m then (1 : ℚ) else 0)).sum = (xs.count m : ℚ) := by
  induction xs with
  | nil => simp
  | cons x l ih =>
      rw [List.map_cons, List.sum_cons, ih, List.count_cons]
      by_cases h : x = m
      · simp [h, add_comm]
      · have hbm : ¬ m = x := fun hc => h hc.symm
        simp [h, hbm]

theorem softmax_length (mexp : ℚ → ℚ) (xs : List ℚ) (t : ℚ) :
    (softmax mexp xs t).length = xs.length := by
  unfold softmax
  split <;> simp

theorem softmax_lowT (mexp : ℚ → ℚ) (xs : List ℚ) (t : ℚ)
    (ht : t ≤ 1 / 1000000000) :
    softmax mexp xs t =
      xs.map (fun x => if x = maxD xs then ((xs.count (maxD xs) : ℚ))⁻¹ else 0) := by
  unfold softmax
  rw [if_pos ht]
  simp only [List.map_map, indicator_sum_eq_count]
  apply List.map_congr_left
  intro x _
  by_cases h : x = maxD xs <;> simp [h, one_div]

theorem softmax_lowT_temp_indep (mexp : ℚ → ℚ) (xs : List ℚ) (t t' : ℚ)
    (ht : t ≤ 1 / 1000000000) (ht' : t' ≤ 1 / 1000000000) :
    softmax mexp xs t = softmax mexp xs t' := by
  unfold softmax
  rw [if_pos ht, if_pos ht']

theorem softmax_nonneg (mexp : ℚ → ℚ) (xs : List ℚ) (t : ℚ)
    (hexp : ∀ y, 0 < mexp y) : ∀ p ∈ softmax mexp xs t, 0 ≤ p := by
  unfold softmax
  split
  · intro p hp
    obtain ⟨q, hq, rfl⟩ := List.mem_map.mp hp
    obtain ⟨x, _, rfl⟩ := List.mem_map.mp hq
    apply div_nonneg
    · split <;> norm_num
    · apply List.sum_nonneg
      intro a ha
      obtain ⟨b, _, rfl⟩ := List.mem_map.mp ha
      split <;> norm_num
  · intro p hp
    obtain ⟨q, hq, rfl⟩ := List.mem_map.mp hp
    obtain ⟨x, _, rfl⟩ := List.mem_map.mp hq
    apply div_nonneg (le_of_lt (hexp _))
    apply List.sum_nonneg
    intro a ha
    obtain ⟨b, _, rfl⟩ := List.mem_map.mp ha
    exact le_of_lt (hexp _)

theorem softmax_sum_eq_one (mexp : ℚ → ℚ) (xs : List ℚ) (t : ℚ)
    (hxs : xs ≠ []) (hexp : ∀ y, 0 < mexp y) :
    (softmax mexp xs t).sum = 1 := by
  unfold softmax
  split
  · rw [sum_map_div, indicator_sum_eq_count]
    have hc : 0 < xs.count (maxD xs) :=
      List.count_pos_iff.mpr (maxD_mem xs hxs)
    have hc' : ((xs.count (maxD xs) : ℚ)) ≠ 0 := by
      exact_mod_cast Nat.pos_iff_ne_zero.mp hc
    exact div_self hc'
  · rw [sum_map_div]
    have hpos : 0 < (xs.map (fun x => mexp ((x - maxD xs) / t))).sum := by
      apply List.sum_pos
      · intro a ha
        obtain ⟨b, _, rfl⟩ := List.mem_map.mp ha
        exact hexp _
      · simpa using hxs
    exact div_self (ne_of_gt hpos)

/-! ## Helper lemmas: `apply_session_to_stats` -/

/-- Field-by-field characterisation of `apply_session_to_stats`. -/
theorem apply_session_fields (stats : MicroCycleStats) (o : TrainingOption) (d : Int) :
    (apply_session_to_stats stats o d).total_minutes = stats.total_minutes + o.minutes ∧
    (apply_session_to_stats stats o d).run_days =
      (if runIncrementCond o then stats.run_days + 1 else stats.run_days) ∧
    (apply_session_to_stats stats o d).strength_days =
      (if o.is_strength = true then stats.strength_days + 1 else stats.strength_days) ∧
    (apply_session_to_stats stats o d).last_strength_date =
      (if o.is_strength = true then some d else stats.last_strength_date) ∧
    (apply_session_to_stats stats o d).quality_days =
      (if o.is_quality = true then stats.quality_days + 1 else stats.quality_days) ∧
    (apply_session_to_stats stats o d).last_quality_date =
      (if o.is_quality = true then some d else stats.last_quality_date) ∧
    (apply_session_to_stats stats o d).long_runs =
      (if o.is_long = true then stats.long_runs + 1 else stats.long_runs) ∧
    (apply_session_to_stats stats o d).last_long_date =
      (if o.is_long = true then some d else stats.last_long_date) := by
  unfold apply_session_to_stats runIncrementCond
  split_ifs <;> simp_all

theorem apply_session_total (stats : MicroCycleStats) (o : TrainingOption) (d : Int) :
    (apply_session_to_stats stats o d).total_minutes = stats.total_minutes + o.minutes :=
  (apply_session_fields stats o d).1

/-- Each counter is unchanged or incremented by one; with non-negative
session minutes the whole record is pointwise non-decreasing. -/
theorem apply_session_mono (stats : MicroCycleStats) (o : TrainingOption) (d : Int)
    (hm : 0 ≤ o.minutes) :
    stats.run_days ≤ (apply_session_to_stats stats o d).run_days ∧
    stats.strength_days ≤ (apply_session_to_stats stats o d).strength_days ∧
    stats.quality_days ≤ (apply_session_to_stats stats o d).quality_days ∧
    stats.long_runs ≤ (apply_session_to_stats stats o d).long_runs ∧
    stats.total_minutes ≤ (apply_session_to_stats stats o d).total_minutes := by
  obtain ⟨ht, hr, hs, _, hq, _, hl, _⟩ := apply_session_fields stats o d
  refine ⟨?_, ?_, ?_, ?_, ?_⟩
  · rw [hr]; split <;> omega
  · rw [hs]; split <;> omega
  · rw [hq]; split <;> omega
  · rw [hl]; split <;> omega
  · rw [ht]; omega

/-! ## Helper lemmas: `simulateDays` -/

theorem simulateDays_nil (mexp : ℚ → ℚ) (g : ℕ → ℚ) (cfg : QuantumDiceConfig)
    (options : List TrainingOption) (day : Int) (stats : MicroCycleStats) (gi : ℕ) :
    simulateDays mexp g cfg options day [] stats gi = some ([], stats, gi) := rfl

theorem simulateDays_cons_some (mexp : ℚ → ℚ) (g : ℕ → ℚ) (cfg : QuantumDiceConfig)
    (options : List TrainingOption) (day : Int) (st : AthleteState)
    (rest : List AthleteState) (stats : MicroCycleStats) (gi : ℕ)
    (chosen : TrainingOption) (top : List Scored) (gi' : ℕ)
    (hch : choose mexp g gi cfg options st stats day 6 = some (chosen, top, gi')) :
    simulateDays mexp g cfg options day (st :: rest) stats gi =
      match simulateDays mexp g cfg options (day + 1) rest
          (apply_session_to_stats stats chosen day) gi' with
      | none => none
      | some (logs, statsF, giF) =>
          some (dayLog cfg chosen st stats day top :: logs, statsF, giF) := by
  rw [simulateDays, hch]

theorem simulateDays_cons_none (mexp : ℚ → ℚ) (g : ℕ → ℚ) (cfg : QuantumDiceConfig)
    (options : List TrainingOption) (day : Int) (st : AthleteState)
    (rest : List AthleteState) (stats : MicroCycleStats) (gi : ℕ)
    (hch : choose mexp g gi cfg options st stats day 6 = none) :
    simulateDays mexp g cfg options day (st :: rest) stats gi = none := by
  rw [simulateDays, hch]

/-- Structure of a successful `simulateDays` run: one log per state, dated
consecutively, each recording the identifier, minutes and intensity of
some catalog option, with the final `total_minutes` accounting for
exactly the logged minutes. -/
theorem simulateDays_spec (mexp : ℚ → ℚ) (g : ℕ → ℚ) (cfg : QuantumDiceConfig)
    (options : List TrainingOption) (hne : options ≠ []) :
    ∀ (states : List AthleteState) (day : Int) (stats : MicroCycleStats) (gi : ℕ),
    ∃ logs statsF giF,
      simulateDays mexp g cfg options day states stats gi = some (logs, statsF, giF) ∧
      logs.length = states.length ∧
      (∀ i, ∀ hi : i < logs.length, (logs.get ⟨i, hi⟩).date = day + i ∧
        ∃ o ∈ options, (logs.get ⟨i, hi⟩).session_id = o.id ∧
          (logs.get ⟨i, hi⟩).minutes = o.minutes ∧
          (logs.get ⟨i, hi⟩).intensity = o.intensity) ∧
      statsF.total_minutes = stats.total_minutes + (logs.map (fun lg => lg.minutes)).sum := by
  intro states
  induction states with
  | nil =>
      intro day stats gi
      exact ⟨[], stats, gi, rfl, rfl, by intro i hi; simp at hi, by simp⟩
  | cons st rest ih =>
      intro day stats gi
      cases hch : choose mexp g gi cfg options st stats day 6 with
      | none =>
          exact absurd ((choose_eq_none_iff mexp g gi cfg options st stats day 6).mp hch) hne
      | some out =>
          obtain ⟨chosen, top, gi'⟩ := out
          obtain ⟨logs', sF, giF, hrun, hlen, hprops, htot⟩ :=
            ih (day + 1) (apply_session_to_stats stats chosen day) gi'
          refine ⟨dayLog cfg chosen st stats day top :: logs', sF, giF, ?_, ?_, ?_, ?_⟩
          · rw [simulateDays_cons_some mexp g cfg options day st rest stats gi chosen top gi' hch,
              hrun]
          · simp [hlen]
          · intro i hi
            cases i with
            | zero =>
                refine ⟨by simp [dayLog], chosen, choose_mem mexp g gi cfg options st stats
                  day 6 chosen top gi' hch, rfl, rfl, rfl⟩
            | succ n =>
                have hn : n < logs'.length := by simpa using hi
                obtain ⟨hdate, ho⟩ := hprops n hn
                constructor
                · show (logs'.get ⟨n, hn⟩).date = day + ((n : ℤ) + 1)
                  rw [hdate]; ring
                · exact ho
          · simp only [List.map_cons, List.sum_cons]
            rw [htot, apply_session_total]
            have hmin : (dayLog cfg chosen st stats day top).minutes = chosen.minutes := rfl
            rw [hmin]; ring

/-- Running the day loop on `l1 ++ l2` runs it on `l1` and continues on
`l2` from the stats, cursor and date the `l1` run reached. -/
theorem simulateDays_append (mexp : ℚ → ℚ) (g : ℕ → ℚ) (cfg : QuantumDiceConfig)
    (options : List TrainingOption) :
    ∀ (l1 l2 : List AthleteState) (day : Int) (stats : MicroCycleStats) (gi : ℕ),
    simulateDays mexp g cfg options day (l1 ++ l2) stats gi =
      match simulateDays mexp g cfg options day l1 stats gi with
      | none => none
      | some (logs1, s1, g1) =>
          match simulateDays mexp g cfg options (day + l1.length) l2 s1 g1 with
          | none => none
          | some (logs2, s2, g2) => some (logs1 ++ logs2, s2, g2) := by
  intro l1
  induction l1 with
  | nil =>
      intro l2 day stats gi
      rw [List.nil_append, simulateDays_nil]
      simp only [List.length_nil, Nat.cast_zero, add_zero]
      cases h : simulateDays mexp g cfg options day l2 stats gi with
      | none => rfl
      | some out => obtain ⟨logs2, s2, g2⟩ := out; simp
  | cons st l1t ih =>
      intro l2 day stats gi
      rw [List.cons_append]
      cases hch : choose mexp g gi cfg options st stats day 6 with
      | none =>
          rw [simulateDays_cons_none mexp g cfg options day st (l1t ++ l2) stats gi hch,
            simulateDays_cons_none mexp g cfg options day st l1t stats gi hch]
      | some out =>
          obtain ⟨chosen, top, gi'⟩ := out
          rw [simulateDays_cons_some mexp g cfg options day st (l1t ++ l2) stats gi
              chosen top gi' hch,
            simulateDays_cons_some mexp g cfg options day st l1t stats gi
              chosen top gi' hch,
            ih l2 (day + 1) (apply_session_to_stats stats chosen day) gi']
          have hday : day + 1 + (l1t.length : ℤ) = day + ((l1t.length : ℤ) + 1) := by ring
          cases h1 : simulateDays mexp g cfg options (day + 1) l1t
              (apply_session_to_stats stats chosen day) gi' with
          | none => rfl
          | some out1 =>
              obtain ⟨logs1, s1, g1⟩ := out1
              simp only [List.length_cons, Nat.cast_add, Nat.cast_one, ← hday]
              cases h2 : simulateDays mexp g cfg options (day + 1 + (l1t.length : ℤ))
                  l2 s1 g1 with
              | none => rfl
              | some out2 => obtain ⟨logs2, s2, g2⟩ := out2; rfl

/-! ## Helper lemmas: scorer -/

theorem score_option_infeasible (cfg : QuantumDiceConfig) (o : TrainingOption)
    (s : AthleteState) (stats : MicroCycleStats) (today : Int)
    (h : s.time_minutes < o.min_time) :
    score_option cfg o s stats today = (-9999, 10, "ODRZUT: brak czasu") := by
  unfold score_option
  rw [if_pos h]

theorem score_option_utility_feasible (cfg : QuantumDiceConfig) (o : TrainingOption)
    (s : AthleteState) (stats : MicroCycleStats) (today : Int)
    (h : ¬ s.time_minutes < o.min_time) :
    (score_option cfg o s stats today).1 =
      benefitOf o s stats - cfg.risk_aversion * riskOf o s -
        penaltiesOf o s stats today := by
  unfold score_option
  rw [if_neg h]

theorem score_option_risk_feasible (cfg : QuantumDiceConfig) (o : TrainingOption)
    (s : AthleteState) (stats : MicroCycleStats) (today : Int)
    (h : ¬ s.time_minutes < o.min_time) :
    (score_option cfg o s stats today).2.1 = riskOf o s := by
  unfold score_option
  rw [if_neg h]

/-- A time-rejected option scores exactly the sentinel, so any utility
above the sentinel certifies feasibility. -/
theorem utility_above_sentinel_feasible (cfg : QuantumDiceConfig) (o : TrainingOption)
    (s : AthleteState) (stats : MicroCycleStats) (today : Int)
    (h : -9999 < (score_option cfg o s stats today).1) :
    ¬ s.time_minutes < o.min_time := by
  intro hc
  rw [score_option_infeasible cfg o s stats today hc] at h
  exact absurd h (by norm_num)

/-! ## Helper lemmas: monotonicity of the risk model -/

theorem riskOf_eq (o : TrainingOption) (s : AthleteState) :
    riskOf o s = o.base_risk * (1 + s.pain / 5) * (1 + s.fatigue / 10) *
      (1 + max 0 (7 - s.sleep_hours) / 7) := rfl

theorem one_add_sleep_nonneg (s : AthleteState) :
    0 ≤ 1 + max 0 (7 - s.sleep_hours) / 7 := by
  have h : (0 : ℚ) ≤ max 0 (7 - s.sleep_hours) := le_max_left 0 _
  positivity

theorem riskOf_mono_pain (o : TrainingOption) (s : AthleteState) (p' : ℚ)
    (hbr : 0 ≤ o.base_risk) (hf : 0 ≤ s.fatigue) (hp : s.pain ≤ p') :
    riskOf o s ≤ riskOf o { s with pain := p' } := by
  rw [riskOf_eq, riskOf_eq]
  have h1 : 1 + s.pain / 5 ≤ 1 + p' / 5 := by linarith
  have h2 : (0 : ℚ) ≤ 1 + s.fatigue / 10 := by linarith
  have h3 := one_add_sleep_nonneg s
  have hstep : o.base_risk * (1 + s.pain / 5) ≤ o.base_risk * (1 + p' / 5) :=
    mul_le_mul_of_nonneg_left h1 hbr
  exact mul_le_mul_of_nonneg_right
    (mul_le_mul_of_nonneg_right hstep h2) h3

theorem riskOf_mono_fatigue (o : TrainingOption) (s : AthleteState) (f' : ℚ)
    (hbr : 0 ≤ o.base_risk) (hp : 0 ≤ s.pain) (hf : s.fatigue ≤ f') :
    riskOf o s ≤ riskOf o { s with fatigue := f' } := by
  rw [riskOf_eq, riskOf_eq]
  have h1 : 1 + s.fatigue / 10 ≤ 1 + f' / 10 := by linarith
  have h2 : (0 : ℚ) ≤ o.base_risk * (1 + s.pain / 5) :=
    mul_nonneg hbr (by linarith)
  have h3 := one_add_sleep_nonneg s
  exact mul_le_mul_of_nonneg_right (mul_le_mul_of_nonneg_left h1 h2) h3

theorem riskOf_mono_sleep (o : TrainingOption) (s : AthleteState) (sl' : ℚ)
    (hbr : 0 ≤ o.base_risk) (hp : 0 ≤ s.pain) (hf : 0 ≤ s.fatigue)
    (hs : sl' ≤ s.sleep_hours) :
    riskOf o s ≤ riskOf o { s with sleep_hours := sl' } := by
  rw [riskOf_eq, riskOf_eq]
  have h1 : max 0 (7 - s.sleep_hours) ≤ max 0 (7 - sl') :=
    max_le_max (le_refl 0) (by linarith)
  have h2 : 1 + max 0 (7 - s.sleep_hours) / 7 ≤ 1 + max 0 (7 - sl') / 7 := by
    linarith
  have h3 : (0 : ℚ) ≤ o.base_risk * (1 + s.pain / 5) * (1 + s.fatigue / 10) :=
    mul_nonneg (mul_nonneg hbr (by linarith)) (by linarith)
  exact mul_le_mul_of_nonneg_left h2 h3

/-! ## Helper lemmas: cumulative-sum inversion -/

theorem cumPickAux_spec (pick : ℚ) :
    ∀ (ps : List ℚ) (cum : ℚ) (i j : ℕ), cumPickAux pick ps cum i = some j →
      ∃ kk p, j = i + kk ∧ ps.get? kk = some p ∧ (0 < p ∨ pick ≤ cum) := by
  intro ps
  induction ps with
  | nil => intro cum i j h; simp [cumPickAux] at h
  | cons p ps' ih =>
      intro cum i j h
      unfold cumPickAux at h
      by_cases hb : pick ≤ cum + p
      · rw [if_pos hb] at h
        have hj : j = i := (Option.some.inj h).symm
        subst hj
        by_cases hpp : 0 < p
        · exact ⟨0, p, by omega, rfl, Or.inl hpp⟩
        · exact ⟨0, p, by omega, rfl, Or.inr (by push_neg at hpp; linarith)⟩
      · rw [if_neg hb] at h
        obtain ⟨kk', p', hj, hget, hd⟩ := ih (cum + p) (i + 1) j h
        refine ⟨kk' + 1, p', by omega, by simpa using hget, ?_⟩
        rcases hd with hd | hd
        · exact Or.inl hd
        · exact absurd hd hb

theorem scored_mem_elim (cfg : QuantumDiceConfig) (options : List TrainingOption)
    (s : AthleteState) (stats : MicroCycleStats) (today : Int) (y : Scored)
    (hy : y ∈ scoredOf cfg options s stats today) :
    ∃ opt ∈ options, y = ((score_option cfg opt s stats today).1, opt,
      (score_option cfg opt s stats today).2.1,
      (score_option cfg opt s stats today).2.2) := by
  obtain ⟨opt, hopt, rfl⟩ := List.mem_map.mp hy
  exact ⟨opt, hopt, rfl⟩

/-- If the greedy branch is taken or the temperature is at most `1e-9`,
and some option scores strictly above the sentinel, then the chosen
option is never time-rejected. -/
theorem choose_not_rejected (mexp : ℚ → ℚ) (g : ℕ → ℚ) (gi : ℕ)
    (cfg : QuantumDiceConfig) (options : List TrainingOption) (s : AthleteState)
    (stats : MicroCycleStats) (today : Int) (k : ℕ)
    (hbranch : ¬ g gi < cfg.exploration ∨ cfg.temperature ≤ 1 / 1000000000)
    (hfeas : ∃ o ∈ options, -9999 < (score_option cfg o s stats today).1) :
    ∃ ch ranked gi', choose mexp g gi cfg options s stats today k =
      some (ch, ranked, gi') ∧ ¬ s.time_minutes < ch.min_time := by
  obtain ⟨o, ho, huo⟩ := hfeas
  have hne : options ≠ [] := by
    intro hcon; subst hcon; simp at ho
  cases hs : sortDesc (scoredOf cfg options s stats today) with
  | nil =>
      exfalso
      have : scoredOf cfg options s stats today = [] := (sortDesc_eq_nil_iff _).mp hs
      rw [scoredOf] at this
      exact hne (List.map_eq_nil_iff.mp this)
  | cons top rest =>
      have hmax : eMaxList (scoredOf cfg options s stats today) = some top := by
        rw [← sortDesc_head, hs]; rfl
      obtain ⟨_, _, _, hge, _⟩ := eMaxList_spec _ top hmax
      have hfo_mem : ((score_option cfg o s stats today).1, o,
          (score_option cfg o s stats today).2.1,
          (score_option cfg o s stats today).2.2) ∈ scoredOf cfg options s stats today :=
        List.mem_map_of_mem _ ho
      have htop_gt : -9999 < top.1 := lt_of_lt_of_le huo (hge _ hfo_mem)
      have hsorted_elim : ∀ y ∈ top :: rest, -9999 < y.1 →
          ¬ s.time_minutes < y.2.1.min_time := by
        intro y hy hy1
        have hy' : y ∈ scoredOf cfg options s stats today :=
          (sortDesc_perm _).mem_iff.mp (hs ▸ hy)
        obtain ⟨opt, _, rfl⟩ := scored_mem_elim cfg options s stats today y hy'
        exact utility_above_sentinel_feasible cfg opt s stats today hy1
      by_cases hexpl : g gi < cfg.exploration
      · -- exploration branch; hbranch forces a tiny temperature
        have ht : cfg.temperature ≤ 1 / 1000000000 := by
          rcases hbranch with hb | hb
          · exact absurd hexpl hb
          · exact hb
        rw [choose_explore mexp g gi cfg options s stats today k hexpl top rest hs]
        refine ⟨_, _, _, rfl, ?_⟩
        set us : List ℚ := (top :: rest).map (fun y : Scored => y.1) with hus
        have hprobs : softmax mexp us cfg.temperature =
            us.map (fun x => if x = maxD us then ((us.count (maxD us) : ℚ))⁻¹ else 0) :=
          softmax_lowT mexp us cfg.temperature ht
        have htop_mem_us : top.1 ∈ us := by
          rw [hus]; exact List.mem_map_of_mem _ (List.mem_cons_self _ _)
        have hmax_gt : -9999 < maxD us := lt_of_lt_of_le htop_gt (le_maxD us top.1 htop_mem_us)
        -- analyse the sampled index
        rcases haux : cumPickAux (g (gi + 1)) (softmax mexp us cfg.temperature) 0 0 with _ | j
        · -- no break: default index 0, the top element
          have hidx : cumPick (g (gi + 1)) (softmax mexp us cfg.temperature) = 0 := by
            unfold cumPick; rw [haux]; rfl
          rw [hidx]
          exact hsorted_elim top (List.mem_cons_self _ _) htop_gt
        · obtain ⟨kk, p, hjkk, hget, hd⟩ :=
            cumPickAux_spec (g (gi + 1)) (softmax mexp us cfg.temperature) 0 0 j haux
          have hidx : cumPick (g (gi + 1)) (softmax mexp us cfg.temperature) = j := by
            unfold cumPick; rw [haux]; rfl
          rcases hd with hpos | hpick
          · -- positive probability at the break index: a maximal entry
            rw [hprobs, List.get?_map] at hget
            obtain ⟨x, hx, hfx⟩ := Option.map_eq_some'.mp hget
            have hmaxkk : x = maxD us := by
              by_contra hc
              rw [← hfx, if_neg hc] at hpos
              exact absurd hpos (by norm_num)
            rw [hus, List.get?_map] at hx
            obtain ⟨e, he, hex⟩ := Option.map_eq_some'.mp hx
            have hgetD : (top :: rest).getD j top = e := by
              show ((top :: rest).get? j).getD top = e
              rw [hjkk, Nat.zero_add, he]
              rfl
            rw [hidx, hgetD]
            apply hsorted_elim e (List.get?_mem he)
            rw [hex, hmaxkk]
            exact hmax_gt
          · -- the draw is ≤ 0: the loop breaks at index 0 immediately
            have hres : j = 0 := by
              cases hps : softmax mexp us cfg.temperature with
              | nil =>
                  rw [hps] at haux; simp [cumPickAux] at haux
              | cons p0 ptail =>
                  have hp0 : 0 ≤ p0 := by
                    have hm : p0 ∈ softmax mexp us cfg.temperature := by
                      rw [hps]; exact List.mem_cons_self _ _
                    rw [hprobs] at hm
                    obtain ⟨x, _, hfx⟩ := List.mem_map.mp hm
                    rw [← hfx]
                    split
                    · positivity
                    · exact le_refl 0
                  rw [hps] at haux
                  unfold cumPickAux at haux
                  rw [if_pos (by linarith)] at haux
                  exact (Option.some.inj haux).symm
            rw [hidx, hres]
            exact hsorted_elim top (List.mem_cons_self _ _) htop_gt
      · -- greedy branch
        rw [choose_greedy mexp g gi cfg options s stats today k hexpl top rest hs]
        exact ⟨_, _, _, rfl, hsorted_elim top (List.mem_cons_self _ _) htop_gt⟩

/-! ## Helper lemmas: the state-passing variants -/

theorem score_optionSt_eq (cfg : QuantumDiceConfig) (o : TrainingOption) (today : Int)
    (ss : AthleteState × MicroCycleStats) :
    score_optionSt cfg o today ss = (score_option cfg o ss.1 ss.2 today, ss) := by
  unfold score_optionSt score_option
  split <;> rfl

theorem chooseScoreLoop_eq (cfg : QuantumDiceConfig) (today : Int) :
    ∀ (opts : List TrainingOption) (acc : List Scored)
      (ss : AthleteState × MicroCycleStats),
      chooseScoreLoop cfg today opts acc ss =
        (acc ++ scoredOf cfg opts ss.1 ss.2 today, ss) := by
  intro opts
  induction opts with
  | nil => intro acc ss; simp [chooseScoreLoop, scoredOf]
  | cons o os ih =>
      intro acc ss
      rw [chooseScoreLoop, score_optionSt_eq, ih]
      simp [scoredOf]

theorem chooseSt_eq (mexp : ℚ → ℚ) (g : ℕ → ℚ) (gi : ℕ) (cfg : QuantumDiceConfig)
    (today : Int) (k : ℕ) (s : AthleteState) (stats : MicroCycleStats)
    (options : List TrainingOption) :
    chooseSt mexp g gi cfg today k (s, stats, options) =
      (choose mexp g gi cfg options s stats today k, (s, stats, options)) := by
  unfold chooseSt choose
  rw [chooseScoreLoop_eq]
  rfl

/-! ## Helper lemmas: day-by-day statistics of `simulate_week` -/

theorem default_options_ne_nil : default_training_options ≠ [] := by
  unfold default_training_options
  exact List.cons_ne_nil _ _

theorem default_options_minutes_nonneg :
    ∀ o ∈ default_training_options, 0 ≤ o.minutes := by decide

theorem simulateDays_append_some (mexp : ℚ → ℚ) (g : ℕ → ℚ) (cfg : QuantumDiceConfig)
    (options : List TrainingOption) (l1 l2 : List AthleteState) (day : Int)
    (stats : MicroCycleStats) (gi : ℕ) (logs1 : List TrainingDayLog)
    (s1 : MicroCycleStats) (g1 : ℕ)
    (h1 : simulateDays mexp g cfg options day l1 stats gi = some (logs1, s1, g1)) :
    simulateDays mexp g cfg options day (l1 ++ l2) stats gi =
      match simulateDays mexp g cfg options (day + l1.length) l2 s1 g1 with
      | none => none
      | some (logs2, s2, g2) => some (logs1 ++ logs2, s2, g2) := by
  rw [simulateDays_append, h1]

theorem simulateDays_singleton (mexp : ℚ → ℚ) (g : ℕ → ℚ) (cfg : QuantumDiceConfig)
    (options : List TrainingOption) (day : Int) (st : AthleteState)
    (stats : MicroCycleStats) (gi : ℕ) (chosen : TrainingOption) (top : List Scored)
    (gi' : ℕ)
    (hch : choose mexp g gi cfg options st stats day 6 = some (chosen, top, gi')) :
    simulateDays mexp g cfg options day [st] stats gi =
      some ([dayLog cfg chosen st stats day top],
        apply_session_to_stats stats chosen day, gi') := by
  rw [simulateDays_cons_some mexp g cfg options day st [] stats gi chosen top gi' hch,
    simulateDays_nil]

theorem statsAfter_isSome (mexp : ℚ → ℚ) (g : ℕ → ℚ) (cfg : QuantumDiceConfig)
    (start : Int) (states : List AthleteState) (k : ℕ) :
    ∃ logs sk gik,
      simulateDays mexp g cfg default_training_options start (states.take k)
        ({} : MicroCycleStats) 0 = some (logs, sk, gik) ∧
      statsAfter mexp g cfg start states k = some sk := by
  obtain ⟨logs, sk, gik, hrun, _⟩ :=
    simulateDays_spec mexp g cfg default_training_options default_options_ne_nil
      (states.take k) start ({} : MicroCycleStats) 0
  refine ⟨logs, sk, gik, hrun, ?_⟩
  unfold statsAfter
  rw [hrun]

/-- One more simulated day can only leave every counter in place or
increase it. -/
theorem statsAfter_succ (mexp : ℚ → ℚ) (g : ℕ → ℚ) (cfg : QuantumDiceConfig)
    (start : Int) (states : List AthleteState) (k : ℕ) (sk : MicroCycleStats)
    (hsk : statsAfter mexp g cfg start states k = some sk) :
    ∃ sk1, statsAfter mexp g cfg start states (k + 1) = some sk1 ∧
      sk.run_days ≤ sk1.run_days ∧ sk.strength_days ≤ sk1.strength_days ∧
      sk.quality_days ≤ sk1.quality_days ∧ sk.long_runs ≤ sk1.long_runs ∧
      sk.total_minutes ≤ sk1.total_minutes := by
  obtain ⟨logsk, sk', gik, hrun, hsk'⟩ := statsAfter_isSome mexp g cfg start states k
  have hsksk : sk' = sk := Option.some.inj (hsk'.symm.trans hsk)
  rw [hsksk] at hrun
  cases hget : states[k]? with
  | none =>
      have htake : states.take (k + 1) = states.take k := by
        rw [List.take_succ, hget]
        simp
      refine ⟨sk, ?_, le_refl _, le_refl _, le_refl _, le_refl _, le_refl _⟩
      unfold statsAfter
      rw [htake, hrun]
  | some st =>
      cases hch : choose mexp g gik cfg default_training_options st sk
          (start + (states.take k).length) 6 with
      | none =>
          exact absurd ((choose_eq_none_iff mexp g gik cfg default_training_options st sk
            (start + (states.take k).length) 6).mp hch) default_options_ne_nil
      | some out =>
          obtain ⟨chosen, top, gi'⟩ := out
          have htake : states.take (k + 1) = states.take k ++ [st] := by
            rw [List.take_succ, hget]
            rfl
          have happ : simulateDays mexp g cfg default_training_options start
              (states.take k ++ [st]) ({} : MicroCycleStats) 0 =
              some (logsk ++ [dayLog cfg chosen st sk (start + (states.take k).length) top],
                apply_session_to_stats sk chosen (start + (states.take k).length), gi') := by
            rw [simulateDays_append_some mexp g cfg default_training_options
                (states.take k) [st] start ({} : MicroCycleStats) 0 logsk sk gik hrun,
              simulateDays_singleton mexp g cfg default_training_options
                (start + (states.take k).length) st sk gik chosen top gi' hch]
          have hmono := apply_session_mono sk chosen (start + (states.take k).length)
            (default_options_minutes_nonneg chosen
              (choose_mem mexp g gik cfg default_training_options st sk
                (start + (states.take k).length) 6 chosen top gi' hch))
          refine ⟨apply_session_to_stats sk chosen (start + (states.take k).length), ?_,
            hmono.1, hmono.2.1, hmono.2.2.1, hmono.2.2.2.1, hmono.2.2.2.2⟩
          unfold statsAfter
          rw [htake, happ]

theorem statsAfter_nonneg (mexp : ℚ → ℚ) (g : ℕ → ℚ) (cfg : QuantumDiceConfig)
    (start : Int) (states : List AthleteState) :
    ∀ k sk, statsAfter mexp g cfg start states k = some sk →
      0 ≤ sk.run_days ∧ 0 ≤ sk.strength_days ∧ 0 ≤ sk.quality_days ∧
      0 ≤ sk.long_runs ∧ 0 ≤ sk.total_minutes := by
  intro k
  induction k with
  | zero =>
      intro sk h
      unfold statsAfter at h
      rw [List.take_zero, simulateDays_nil] at h
      have : ({} : MicroCycleStats) = sk := Option.some.inj h
      subst this
      exact ⟨le_refl 0, le_refl 0, le_refl 0, le_refl 0, le_refl 0⟩
  | succ n ih =>
      intro sk1 h1
      obtain ⟨_, sn, _, _, hsn⟩ := statsAfter_isSome mexp g cfg start states n
      obtain ⟨sk1', hs1', hm1, hm2, hm3, hm4, hm5⟩ :=
        statsAfter_succ mexp g cfg start states n sn hsn
      have : sk1' = sk1 := Option.some.inj (hs1'.symm.trans h1)
      subst this
      obtain ⟨n1, n2, n3, n4, n5⟩ := ih sn hsn
      exact ⟨le_trans n1 hm1, le_trans n2 hm2, le_trans n3 hm3,
        le_trans n4 hm4, le_trans n5 hm5⟩

/-! # Claim theorems -/

/-- C1 (corrected). For every option and state with
`time_minutes < min_time`, `score_option` returns the sentinel
`(-9999, 10)` with the fixed rejection rationale, regardless of stats,
date and configuration.  Amended selection part: whenever some feasible
catalog option scores strictly above the sentinel and the exploration
branch is not taken (in particular whenever `exploration = 0`; a
temperature at most `1e-9` is also safe), `choose` never returns a
time-rejected option.  As stated — without the above-sentinel proviso —
the claim is false: see the counterexample, where an extreme
`risk_aversion` pushes every feasible utility below −9999. -/
theorem claim_C1 (mexp : ℚ → ℚ) (g : ℕ → ℚ) (gi k : ℕ) (cfg : QuantumDiceConfig)
    (options : List TrainingOption) (s : AthleteState) (stats : MicroCycleStats)
    (today : Int) :
    (∀ o : TrainingOption, s.time_minutes < o.min_time →
      score_option cfg o s stats today = (-9999, 10, "ODRZUT: brak czasu")) ∧
    ((¬ g gi < cfg.exploration ∨ cfg.temperature ≤ 1 / 1000000000) →
      (∃ o ∈ options, ¬ s.time_minutes < o.min_time ∧
        -9999 < (score_option cfg o s stats today).1) →
      ∃ ch ranked gi',
        choose mexp g gi cfg options s stats today k = some (ch, ranked, gi') ∧
        ¬ s.time_minutes < ch.min_time) := by
  constructor
  · intro o h
    exact score_option_infeasible cfg o s stats today h
  · intro hbranch hfeas
    obtain ⟨o, ho, _, hgt⟩ := hfeas
    exact choose_not_rejected mexp g gi cfg options s stats today k hbranch ⟨o, ho, hgt⟩

/-- C1 counterexample. State with 30 free minutes: the 20-minute rest
option is feasible, yet under `c1Cfg` (temperature 0, exploration 0,
risk aversion 10⁶) the feasible utilities fall below −9999 and the
deterministic greedy selection returns the time-rejected `easy_run_40`
(min_time 35 > 30). -/
theorem claim_C1_counterexample :
    (∃ o ∈ default_training_options, ¬ c1State.time_minutes < o.min_time) ∧
    (choose mexpOne gZero 0 c1Cfg default_training_options c1State {} 0 6).map
        (fun r => r.1.id) = some "easy_run_40" ∧
    (∀ o ∈ default_training_options, o.id = "easy_run_40" →
      c1State.time_minutes < o.min_time) := by
  refine ⟨by decide, ?_, by decide⟩
  norm_num +decide [choose, scoredOf, sortDesc, insertDesc, softmax, maxD, cumPick,
    cumPickAux, score_option, riskOf, benefitOf, goalBenefit, penaltiesOf, injuryGate,
    runBonusCond, strengthBonusCond, qualitySpacingCond, longCapCond, fatigueCond,
    lowBaseCond, notesOf, TrainingOption.is_quality, TrainingOption.is_long,
    TrainingOption.is_strength, c1State, c1Cfg, gZero, mexpOne, default_training_options]

/-- C1 witness: the theorem applied at concrete inputs. -/
theorem claim_C1_witness :
    score_option c1Cfg
        { id := "t", name := "t", min_time := 100, minutes := 100,
          intensity := "easy", base_benefit := 1, base_risk := 1, tags := [] }
        c1State {} 0 = (-9999, 10, "ODRZUT: brak czasu") ∧
    ∃ ch ranked gi',
      choose mexpOne gZero 0 cfgGreedy
          default_training_options { c1State with time_minutes := 50 } {} 0 6 =
        some (ch, ranked, gi') ∧
      ¬ ({ c1State with time_minutes := 50 } : AthleteState).time_minutes <
          ch.min_time := by
  constructor
  · exact (claim_C1 mexpOne gZero 0 6 c1Cfg default_training_options c1State {} 0).1
      _ (by decide)
  · exact (claim_C1 mexpOne gZero 0 6 cfgGreedy
      default_training_options { c1State with time_minutes := 50 } {} 0).2
      (Or.inl (by norm_num [gZero, cfgGreedy]))
      (by norm_num +decide [score_option, riskOf, benefitOf, goalBenefit, penaltiesOf,
        injuryGate, runBonusCond, strengthBonusCond, qualitySpacingCond, longCapCond,
        fatigueCond, lowBaseCond, notesOf, TrainingOption.is_quality,
        TrainingOption.is_long, TrainingOption.is_strength, c1State, cfgGreedy,
        default_training_options])

/-- C2 (confirmed). With exploration rate 0 (and any temperature),
for every random draw in `[0, 1)` the choice is the same: `choose`
returns the option at the least utility-maximal catalog index (stable
descending sort, ties to the earlier option), consuming exactly the one
coin-flip draw. -/
theorem claim_C2 (mexp : ℚ → ℚ) (g : ℕ → ℚ) (gi k : ℕ) (cfg : QuantumDiceConfig)
    (options : List TrainingOption) (s : AthleteState) (stats : MicroCycleStats)
    (today : Int) (hne : options ≠ []) (hexp : cfg.exploration = 0) (hg : 0 ≤ g gi) :
    ∃ ranked i, ∃ hi : i < options.length,
      choose mexp g gi cfg options s stats today k =
        some (options.get ⟨i, hi⟩, ranked, gi + 1) ∧
      (∀ j, ∀ hj : j < options.length,
        (score_option cfg (options.get ⟨j, hj⟩) s stats today).1 ≤
          (score_option cfg (options.get ⟨i, hi⟩) s stats today).1) ∧
      (∀ j, ∀ hj : j < i,
        (score_option cfg (options.get ⟨j, lt_trans hj hi⟩) s stats today).1 <
          (score_option cfg (options.get ⟨i, hi⟩) s stats today).1) := by
  have hgreedy : ¬ g gi < cfg.exploration := by rw [hexp]; exact not_lt.mpr hg
  cases hs : sortDesc (scoredOf cfg options s stats today) with
  | nil =>
      exact absurd (List.map_eq_nil_iff.mp ((sortDesc_eq_nil_iff _).mp hs)) hne
  | cons top rest =>
      have hmax : eMaxList (scoredOf cfg options s stats today) = some top := by
        rw [← sortDesc_head, hs]; rfl
      obtain ⟨i, hi, hget, hge, hlt⟩ := eMaxList_spec _ top hmax
      have hi' : i < options.length := by
        have hl := scoredOf_length cfg options s stats today
        omega
      have htop : top = ((score_option cfg (options.get ⟨i, hi'⟩) s stats today).1,
          options.get ⟨i, hi'⟩,
          (score_option cfg (options.get ⟨i, hi'⟩) s stats today).2.1,
          (score_option cfg (options.get ⟨i, hi'⟩) s stats today).2.2) :=
        hget.symm.trans (scoredOf_get cfg options s stats today i hi')
      refine ⟨(top :: rest).take k, i, hi', ?_, ?_, ?_⟩
      · rw [choose_greedy mexp g gi cfg options s stats today k hgreedy top rest hs, htop]
      · intro j hj
        have hj' : j < (scoredOf cfg options s stats today).length := by
          rw [scoredOf_length]; exact hj
        have hmem := List.get_mem (scoredOf cfg options s stats today) j hj'
        have hv := hge _ hmem
        rw [scoredOf_get cfg options s stats today j hj] at hv
        rw [htop] at hv
        exact hv
      · intro j hj
        have hv := hlt j hj
        rw [scoredOf_get cfg options s stats today j (lt_trans hj hi')] at hv
        rw [htop] at hv
        exact hv

/-- C2 witness: the theorem applied at concrete inputs. -/
theorem claim_C2_witness :
    ∃ ranked i, ∃ hi : i < default_training_options.length,
      choose mexpOne gZero 0 cfgGreedy default_training_options c1State {} 0 6 =
        some (default_training_options.get ⟨i, hi⟩, ranked, 0 + 1) ∧
      (∀ j, ∀ hj : j < default_training_options.length,
        (score_option cfgGreedy (default_training_options.get ⟨j, hj⟩) c1State {} 0).1 ≤
          (score_option cfgGreedy (default_training_options.get ⟨i, hi⟩) c1State {} 0).1) ∧
      (∀ j, ∀ hj : j < i,
        (score_option cfgGreedy (default_training_options.get ⟨j, lt_trans hj hi⟩)
            c1State {} 0).1 <
          (score_option cfgGreedy (default_training_options.get ⟨i, hi⟩) c1State {} 0).1) :=
  claim_C2 mexpOne gZero 0 6 cfgGreedy
    default_training_options c1State {} 0 default_options_ne_nil rfl
    (by norm_num [gZero, cfgGreedy])

/-- C3 (corrected; amended form). `apply_session_to_stats` adds the
session minutes to `total_minutes`; increments `run_days` if and only if
the session has the run tag or intensity easy/moderate/hard, and is
not strength-tagged and not of intensity rest (the claim omitted the
first guard); increments `strength_days` / `quality_days` / `long_runs`
and sets the corresponding last-date exactly when the matching tag is
present. -/
theorem claim_C3 (stats : MicroCycleStats) (session : TrainingOption) (date : Int) :
    (apply_session_to_stats stats session date).total_minutes =
      stats.total_minutes + session.minutes ∧
    (apply_session_to_stats stats session date).run_days =
      (if runIncrementCond session then stats.run_days + 1 else stats.run_days) ∧
    (apply_session_to_stats stats session date).strength_days =
      (if session.is_strength = true then stats.strength_days + 1
       else stats.strength_days) ∧
    (apply_session_to_stats stats session date).last_strength_date =
      (if session.is_strength = true then some date else stats.last_strength_date) ∧
    (apply_session_to_stats stats session date).quality_days =
      (if session.is_quality = true then stats.quality_days + 1
       else stats.quality_days) ∧
    (apply_session_to_stats stats session date).last_quality_date =
      (if session.is_quality = true then some date else stats.last_quality_date) ∧
    (apply_session_to_stats stats session date).long_runs =
      (if session.is_long = true then stats.long_runs + 1 else stats.long_runs) ∧
    (apply_session_to_stats stats session date).last_long_date =
      (if session.is_long = true then some date else stats.last_long_date) :=
  apply_session_fields stats session date

/-- C3 counterexample. `c3Option` is not strength-tagged and its
intensity is not "rest", so the claim as stated demands a `run_days`
increment; the code leaves `run_days` unchanged because the option
neither carries the run tag nor has intensity easy/moderate/hard. -/
theorem claim_C3_counterexample :
    ¬ c3Option.is_strength = true ∧ c3Option.intensity ≠ "rest" ∧
    (apply_session_to_stats {} c3Option 0).run_days = 0 := by
  decide

/-- C4 (confirmed). For every feasible option the returned risk is
exactly `base_risk · (1 + pain/5) · (1 + fatigue/10) ·
(1 + max 0 (7 − sleep)/7)`, and — under the data-model ranges of the
spec (`base_risk ≥ 0`, `pain ≥ 0`, `fatigue ≥ 0`) — the risk is
non-decreasing in pain, in fatigue, and in the sleep deficit
(i.e. non-increasing in `sleep_hours`), all other inputs held fixed. -/
theorem claim_C4 (cfg : QuantumDiceConfig) (o : TrainingOption) (s : AthleteState)
    (stats : MicroCycleStats) (today : Int)
    (hfe : ¬ s.time_minutes < o.min_time) (hbr : 0 ≤ o.base_risk)
    (hp : 0 ≤ s.pain) (hf : 0 ≤ s.fatigue) :
    (score_option cfg o s stats today).2.1 =
      o.base_risk * (1 + s.pain / 5) * (1 + s.fatigue / 10) *
        (1 + max 0 (7 - s.sleep_hours) / 7) ∧
    (∀ p', s.pain ≤ p' →
      (score_option cfg o s stats today).2.1 ≤
        (score_option cfg o ({ s with pain := p' } : AthleteState) stats today).2.1) ∧
    (∀ f', s.fatigue ≤ f' →
      (score_option cfg o s stats today).2.1 ≤
        (score_option cfg o ({ s with fatigue := f' } : AthleteState) stats today).2.1) ∧
    (∀ sl', sl' ≤ s.sleep_hours →
      (score_option cfg o s stats today).2.1 ≤
        (score_option cfg o ({ s with sleep_hours := sl' } : AthleteState)
          stats today).2.1) := by
  have hr := score_option_risk_feasible cfg o s stats today hfe
  refine ⟨by rw [hr]; rfl, ?_, ?_, ?_⟩
  · intro p' hple
    have hfe' : ¬ ({ s with pain := p' } : AthleteState).time_minutes < o.min_time := hfe
    rw [hr, score_option_risk_feasible cfg o _ stats today hfe']
    exact riskOf_mono_pain o s p' hbr hf hple
  · intro f' hfle
    have hfe' : ¬ ({ s with fatigue := f' } : AthleteState).time_minutes < o.min_time := hfe
    rw [hr, score_option_risk_feasible cfg o _ stats today hfe']
    exact riskOf_mono_fatigue o s f' hbr hp hfle
  · intro sl' hsle
    have hfe' : ¬ ({ s with sleep_hours := sl' } : AthleteState).time_minutes <
        o.min_time := hfe
    rw [hr, score_option_risk_feasible cfg o _ stats today hfe']
    exact riskOf_mono_sleep o s sl' hbr hp hf hsle

/-- C4 witness: the theorem applied at concrete inputs. -/
theorem claim_C4_witness :
    (score_option cfgGreedy wOpt wState {} 0).2.1 =
      wOpt.base_risk * (1 + wState.pain / 5) * (1 + wState.fatigue / 10) *
        (1 + max 0 (7 - wState.sleep_hours) / 7) ∧
    (score_option cfgGreedy wOpt wState {} 0).2.1 ≤
      (score_option cfgGreedy wOpt ({ wState with pain := 5 } : AthleteState) {} 0).2.1 := by
  have h := claim_C4 cfgGreedy wOpt wState {} 0 (by decide)
    (by norm_num [wOpt]) (by norm_num [wState]) (by norm_num [wState])
  exact ⟨h.1, h.2.1 5 (by norm_num [wState])⟩

/-- C7 (confirmed). For every feasible option, lowering the pain from
a value ≥ 4 to one < 4 (all else fixed) raises the utility by exactly
`risk_aversion · Δrisk` plus 4.0 when the option is quality, long or of
intensity "hard" — i.e. the injury gate adds exactly 4.0 if and only if
it applies — and otherwise by exactly `risk_aversion · Δrisk`.
Consequently, for a long option at pain 4.5 with `long_runs = 0` the
long-run-cap penalty does not fire, the injury gate does, and the
utility is below the equal no-pain evaluation by at least the risk delta
weighted by `risk_aversion` plus 4.0. -/
theorem claim_C7 (cfg : QuantumDiceConfig) (o : TrainingOption) (s : AthleteState)
    (stats : MicroCycleStats) (today : Int)
    (hfe : ¬ s.time_minutes < o.min_time) :
    (∀ p', 4 ≤ s.pain → ¬ 4 ≤ p' →
      (score_option cfg o s stats today).1 =
        (score_option cfg o ({ s with pain := p' } : AthleteState) stats today).1 -
          cfg.risk_aversion * ((score_option cfg o s stats today).2.1 -
            (score_option cfg o ({ s with pain := p' } : AthleteState) stats today).2.1) -
          (if o.is_quality = true ∨ o.is_long = true ∨ o.intensity = "hard"
           then 4 else 0)) ∧
    (o.is_long = true → s.pain = 4.5 → stats.long_runs = 0 →
      ¬ longCapCond o stats ∧ injuryGate o s ∧
      (score_option cfg o s stats today).1 ≤
        (score_option cfg o ({ s with pain := 0 } : AthleteState) stats today).1 -
          (cfg.risk_aversion * ((score_option cfg o s stats today).2.1 -
            (score_option cfg o ({ s with pain := 0 } : AthleteState) stats today).2.1)
            + 4)) := by
  have parta : ∀ p', 4 ≤ s.pain → ¬ 4 ≤ p' →
      (score_option cfg o s stats today).1 =
        (score_option cfg o ({ s with pain := p' } : AthleteState) stats today).1 -
          cfg.risk_aversion * ((score_option cfg o s stats today).2.1 -
            (score_option cfg o ({ s with pain := p' } : AthleteState) stats today).2.1) -
          (if o.is_quality = true ∨ o.is_long = true ∨ o.intensity = "hard"
           then 4 else 0) := by
    intro p' h4 hp'
    have hfe' : ¬ ({ s with pain := p' } : AthleteState).time_minutes < o.min_time := hfe
    rw [score_option_utility_feasible cfg o s stats today hfe,
      score_option_utility_feasible cfg o _ stats today hfe',
      score_option_risk_feasible cfg o s stats today hfe,
      score_option_risk_feasible cfg o _ stats today hfe']
    have hb : benefitOf o ({ s with pain := p' } : AthleteState) stats =
        benefitOf o s stats := rfl
    rw [hb]
    have hpen : penaltiesOf o s stats today =
        (if o.is_quality = true ∨ o.is_long = true ∨ o.intensity = "hard"
         then (4 : ℚ) else 0) +
          penaltiesOf o ({ s with pain := p' } : AthleteState) stats today := by
      unfold penaltiesOf
      have hg1 : (if injuryGate o s then (4.0 : ℚ) else 0) =
          (if o.is_quality = true ∨ o.is_long = true ∨ o.intensity = "hard"
           then (4 : ℚ) else 0) := by
        by_cases hC : o.is_quality = true ∨ o.is_long = true ∨ o.intensity = "hard"
        · rw [if_pos ⟨h4, hC⟩, if_pos hC]; norm_num
        · rw [if_neg (fun hg => hC hg.2), if_neg hC]
      have hg2 : (if injuryGate o ({ s with pain := p' } : AthleteState)
          then (4.0 : ℚ) else 0) = 0 :=
        if_neg (fun hg => hp' hg.1)
      have hg3 : (if fatigueCond o ({ s with pain := p' } : AthleteState)
          then (1.8 : ℚ) else 0) = (if fatigueCond o s then (1.8 : ℚ) else 0) := rfl
      rw [hg1, hg2, hg3]
      ring
    rw [hpen]
    ring
  refine ⟨parta, ?_⟩
  intro hlong hpain hlr
  have h4 : 4 ≤ s.pain := by rw [hpain]; norm_num
  have hC : o.is_quality = true ∨ o.is_long = true ∨ o.intensity = "hard" :=
    Or.inr (Or.inl hlong)
  have ha := parta 0 h4 (by norm_num)
  rw [if_pos hC] at ha
  refine ⟨?_, ⟨h4, hC⟩, by linarith⟩
  intro hc
  have hc2 : (1 : Int) ≤ stats.long_runs := hc.2
  omega

/-- C7 witness: the theorem applied at concrete inputs. -/
theorem claim_C7_witness :
    ¬ longCapCond c7Opt {} ∧ injuryGate c7Opt c7State ∧
    (score_option cfgGreedy c7Opt c7State {} 0).1 ≤
      (score_option cfgGreedy c7Opt ({ c7State with pain := 0 } : AthleteState) {} 0).1 -
        (cfgGreedy.risk_aversion * ((score_option cfgGreedy c7Opt c7State {} 0).2.1 -
          (score_option cfgGreedy c7Opt ({ c7State with pain := 0 } : AthleteState)
            {} 0).2.1) + 4) :=
  (claim_C7 cfgGreedy c7Opt c7State {} 0 (by decide)).2 (by decide) rfl rfl

theorem get_append_last {α : Type} : ∀ (l : List α) (a : α)
    (h : l.length < (l ++ [a]).length), (l ++ [a]).get ⟨l.length, h⟩ = a := by
  intro l a
  induction l with
  | nil => intro h; rfl
  | cons x xs ih =>
      intro h
      show (xs ++ [a]).get ⟨xs.length, by simp⟩ = a
      exact ih _

theorem get_append_first {α : Type} : ∀ (l1 l2 : List α) (i : ℕ) (h1 : i < l1.length)
    (h : i < (l1 ++ l2).length), (l1 ++ l2).get ⟨i, h⟩ = l1.get ⟨i, h1⟩ := by
  intro l1
  induction l1 with
  | nil => intro l2 i h1; exact absurd h1 (by simp)
  | cons x xs ih =>
      intro l2 i h1 h
      cases i with
      | zero => rfl
      | succ n =>
          have hn : n < xs.length := by simpa using h1
          show (xs ++ l2).get ⟨n, by simpa using h⟩ = xs.get ⟨n, hn⟩
          exact ih l2 n hn _

/-- C5 (confirmed). `simulate_week` on `n` states returns `n + 1` log
records: record `i < n` is dated `start + i` and carries the identifier,
minutes and intensity of a catalog option; the final record is dated
`start + n`, carries the reserved identifier `"WEEK_SUMMARY"` — distinct
from every catalog id — and its minutes equal the final `total_minutes`,
i.e. the sum of the minutes of the `n` day records. -/
theorem claim_C5 (mexp : ℚ → ℚ) (g : ℕ → ℚ) (start : Int)
    (states : List AthleteState) (cfg : QuantumDiceConfig) :
    ∃ logs, simulate_week mexp g start states cfg = some logs ∧
      logs.length = states.length + 1 ∧
      (∀ i, i < states.length → ∃ hl : i < logs.length,
        (logs.get ⟨i, hl⟩).date = start + i ∧
        ∃ o ∈ default_training_options,
          (logs.get ⟨i, hl⟩).session_id = o.id ∧
          (logs.get ⟨i, hl⟩).minutes = o.minutes ∧
          (logs.get ⟨i, hl⟩).intensity = o.intensity) ∧
      ∃ hn : states.length < logs.length,
        (logs.get ⟨states.length, hn⟩).date = start + states.length ∧
        (logs.get ⟨states.length, hn⟩).session_id = "WEEK_SUMMARY" ∧
        (∀ o ∈ default_training_options, o.id ≠ "WEEK_SUMMARY") ∧
        (logs.get ⟨states.length, hn⟩).minutes =
          ((logs.take states.length).map (fun lg => lg.minutes)).sum := by
  obtain ⟨logsD, statsF, giF, hrun, hlen, hprops, htot⟩ :=
    simulateDays_spec mexp g cfg default_training_options default_options_ne_nil
      states start ({} : MicroCycleStats) 0
  have hweek : simulate_week mexp g start states cfg =
      some (logsD ++ [summaryLog start states.length statsF]) := by
    unfold simulate_week; rw [hrun]
  refine ⟨logsD ++ [summaryLog start states.length statsF], hweek, by simp [hlen], ?_, ?_⟩
  · intro i hi
    have hiD : i < logsD.length := by rw [hlen]; exact hi
    have hl : i < (logsD ++ [summaryLog start states.length statsF]).length := by
      simp
      omega
    have hgeti : (logsD ++ [summaryLog start states.length statsF]).get ⟨i, hl⟩ =
        logsD.get ⟨i, hiD⟩ := get_append_first logsD _ i hiD hl
    obtain ⟨hdate, ho⟩ := hprops i hiD
    exact ⟨hl, by rw [hgeti]; exact hdate, by rw [hgeti]; exact ho⟩
  · have hn : states.length < (logsD ++ [summaryLog start states.length statsF]).length := by
      simp [hlen]
    have hgetn : (logsD ++ [summaryLog start states.length statsF]).get
        ⟨states.length, hn⟩ = summaryLog start states.length statsF := by
      have hidx : (⟨states.length, hn⟩ :
          Fin (logsD ++ [summaryLog start states.length statsF]).length) =
          ⟨logsD.length, by simp⟩ := by
        apply Fin.ext
        exact hlen.symm
      rw [hidx]
      exact get_append_last logsD _ _
    have htake : (logsD ++ [summaryLog start states.length statsF]).take states.length =
        logsD := by
      rw [← hlen]
      exact List.take_left _ _
    refine ⟨hn, by rw [hgetn]; rfl, by rw [hgetn]; rfl, by decide, ?_⟩
    rw [hgetn, htake]
    show statsF.total_minutes = (logsD.map (fun lg => lg.minutes)).sum
    rw [htot]
    simp

/-- C5 witness: the theorem applied at a concrete input. -/
theorem claim_C5_witness :
    ∃ logs, simulate_week mexpOne gZero 0 [] cfgGreedy = some logs ∧
      logs.length = ([] : List AthleteState).length + 1 := by
  obtain ⟨logs, h1, h2, _, _⟩ := claim_C5 mexpOne gZero 0 [] cfgGreedy
  exact ⟨logs, h1, h2⟩

/-- C6 (confirmed). With a fixed seed the consumed random stream is
the seed-determined one, so two runs over the same start date, state
sequence and configuration produce identical log sequences regardless
of the ambient generator state each run started from. -/
theorem claim_C6 (mexp : ℚ → ℚ) (prng : Int → ℕ → ℚ) (amb1 amb2 : ℕ → ℚ)
    (start : Int) (states : List AthleteState) (cfg : QuantumDiceConfig) (sd : Int)
    (hseed : cfg.seed = some sd) :
    simulate_week_seeded mexp prng amb1 start states cfg =
      simulate_week_seeded mexp prng amb2 start states cfg := by
  unfold simulate_week_seeded
  rw [hseed]

/-- C6 witness: the theorem applied at a concrete input. -/
theorem claim_C6_witness :
    simulate_week_seeded mexpOne (fun _ _ => 0) gZero 0 [wState] cfgSeeded =
      simulate_week_seeded mexpOne (fun _ _ => 0) (fun _ => 1 / 2) 0 [wState]
        cfgSeeded :=
  claim_C6 mexpOne (fun _ _ => 0) gZero (fun _ => 1 / 2) 0 [wState] cfgSeeded 42 rfl

/-- C8 (confirmed). For every non-empty utility vector and every
temperature, `_softmax` (with any positive model of `exp`) returns a
vector of the same length, with non-negative entries summing to exactly
1; when the temperature is ≤ 1e-9 it returns probability split uniformly
among the entries tied for the maximum (each `1/count`, 0 elsewhere),
independently of the temperature value, hence without dividing by it. -/
theorem claim_C8 (mexp : ℚ → ℚ) (xs : List ℚ) (t : ℚ) (hxs : xs ≠ [])
    (hexp : ∀ y, 0 < mexp y) :
    (softmax mexp xs t).length = xs.length ∧
    (∀ p ∈ softmax mexp xs t, 0 ≤ p) ∧
    (softmax mexp xs t).sum = 1 ∧
    (t ≤ 1 / 1000000000 →
      softmax mexp xs t =
        xs.map (fun x => if x = maxD xs then ((xs.count (maxD xs) : ℚ))⁻¹ else 0) ∧
      ∀ t', t' ≤ 1 / 1000000000 → softmax mexp xs t = softmax mexp xs t') :=
  ⟨softmax_length mexp xs t, softmax_nonneg mexp xs t hexp,
    softmax_sum_eq_one mexp xs t hxs hexp,
    fun ht => ⟨softmax_lowT mexp xs t ht,
      fun t' ht' => softmax_lowT_temp_indep mexp xs t t' ht ht'⟩⟩

/-- C8 witness: the theorem applied at a concrete input containing
the −9999 sentinel. -/
theorem claim_C8_witness :
    (softmax mexpOne [(1 : ℚ), -9999] 1).sum = 1 ∧
    ∀ p ∈ softmax mexpOne [(1 : ℚ), -9999] 1, 0 ≤ p := by
  have h := claim_C8 mexpOne [(1 : ℚ), -9999] 1 (List.cons_ne_nil _ _)
    (fun _ => one_pos)
  exact ⟨h.2.2.1, h.2.1⟩

/-- C9 (confirmed). The Scorer and the Selector are stateless: the
state-passing translations of `score_option` and `choose` return the
athlete state, the statistics and the option list exactly as received
(no statement of either method assigns to them), while
`apply_session_to_stats` — the Planner's update — genuinely changes the
statistics. -/
theorem claim_C9 (mexp : ℚ → ℚ) (g : ℕ → ℚ) (gi : ℕ) (cfg : QuantumDiceConfig)
    (today : Int) (k : ℕ) (s : AthleteState) (stats : MicroCycleStats)
    (options : List TrainingOption) (o : TrainingOption) :
    score_optionSt cfg o today (s, stats) =
      (score_option cfg o s stats today, (s, stats)) ∧
    chooseSt mexp g gi cfg today k (s, stats, options) =
      (choose mexp g gi cfg options s stats today k, (s, stats, options)) ∧
    ∃ st0 o0 d0, apply_session_to_stats st0 o0 d0 ≠ st0 :=
  ⟨score_optionSt_eq cfg o today (s, stats),
    chooseSt_eq mexp g gi cfg today k s stats options,
    ⟨{}, c3Option, 0, by decide⟩⟩

/-- C10 (confirmed). Along every `simulate_week` run, the statistics
visible after `k` days have non-negative counters, `total_minutes`
equals the sum of the minutes of the first `k` logged (chosen) sessions,
and every counter is non-decreasing from each day to the next. -/
theorem claim_C10 (mexp : ℚ → ℚ) (g : ℕ → ℚ) (cfg : QuantumDiceConfig) (start : Int)
    (states : List AthleteState) (k : ℕ) (hk : k ≤ states.length) :
    ∃ sk, statsAfter mexp g cfg start states k = some sk ∧
      (0 ≤ sk.run_days ∧ 0 ≤ sk.strength_days ∧ 0 ≤ sk.quality_days ∧
        0 ≤ sk.long_runs ∧ 0 ≤ sk.total_minutes) ∧
      (∃ logs, simulate_week mexp g start states cfg = some logs ∧
        sk.total_minutes = ((logs.take k).map (fun lg => lg.minutes)).sum) ∧
      (k < states.length →
        ∃ sk1, statsAfter mexp g cfg start states (k + 1) = some sk1 ∧
          sk.run_days ≤ sk1.run_days ∧ sk.strength_days ≤ sk1.strength_days ∧
          sk.quality_days ≤ sk1.quality_days ∧ sk.long_runs ≤ sk1.long_runs ∧
          sk.total_minutes ≤ sk1.total_minutes) := by
  obtain ⟨logsk, sk, gik, hrunk, hlenk, _, htotk⟩ :=
    simulateDays_spec mexp g cfg default_training_options default_options_ne_nil
      (states.take k) start ({} : MicroCycleStats) 0
  have hsk : statsAfter mexp g cfg start states k = some sk := by
    unfold statsAfter; rw [hrunk]
  obtain ⟨logsR, sF, giF, hrunR, _, _, _⟩ :=
    simulateDays_spec mexp g cfg default_training_options default_options_ne_nil
      (states.drop k) (start + (states.take k).length) sk gik
  have hfull : simulateDays mexp g cfg default_training_options start states
      ({} : MicroCycleStats) 0 = some (logsk ++ logsR, sF, giF) := by
    have happ := simulateDays_append_some mexp g cfg default_training_options
      (states.take k) (states.drop k) start ({} : MicroCycleStats) 0 logsk sk gik hrunk
    rw [List.take_append_drop] at happ
    rw [hrunR] at happ
    exact happ
  have hweek : simulate_week mexp g start states cfg =
      some ((logsk ++ logsR) ++ [summaryLog start states.length sF]) := by
    unfold simulate_week; rw [hfull]
  have hlk : logsk.length = k := by
    rw [hlenk, List.length_take]
    omega
  refine ⟨sk, hsk, statsAfter_nonneg mexp g cfg start states k sk hsk, ?_, ?_⟩
  · refine ⟨(logsk ++ logsR) ++ [summaryLog start states.length sF], hweek, ?_⟩
    have htake : (((logsk ++ logsR) ++ [summaryLog start states.length sF]).take k) =
        logsk := by
      rw [List.append_assoc, ← hlk]
      exact List.take_left _ _
    rw [htake, htotk]
    simp
  · intro _
    exact statsAfter_succ mexp g cfg start states k sk hsk

/-- C10 witness: the theorem applied at a concrete input. -/
theorem claim_C10_witness :
    ∃ sk, statsAfter mexpOne gZero cfgGreedy 0 [] 0 = some sk ∧
      0 ≤ sk.total_minutes := by
  obtain ⟨sk, h1, h2, _, _⟩ := claim_C10 mexpOne gZero cfgGreedy 0 [] 0 (le_refl 0)
  exact ⟨sk, h1, h2.2.2.2.2⟩

end QuantumDice
